import Mathlib

/-!
Verification of the fastcrypto conversion and canonical-encoding layer
(`fastcrypto-zkp/src/conversions.rs`, `fastcrypto-zkp/src/bn254/utils.rs`).

The Rust code bridges two representations of BLS12-381 field elements and
curve points (the arkworks types `Fr`, `Fq`, `Fq2`, `G1Affine`, `G2Affine`
and the blst native types `blst_fr`, `blst_fp`, ...) and implements the
Zcash compressed point encoding.

Embedding conventions:
* An arkworks prime-field element is a residue, embedded as `ZMod p`;
  `into_repr`/serialization expose the canonical representative `val`.
* A blst field value is modelled at the bridge boundary by its semantic
  residue (the spec fixes the boundary form: plain 64-bit words,
  little-endian word order, not Montgomery form).  `blst_fr_from_uint64`
  reduces the 256-bit word value modulo the order, and
  `blst_uint64_from_fr` yields the canonical words; both facts are the
  documented blst interface behaviour.
* Byte buffers are `List Nat`, each entry a byte value.
* Rust panics (`unwrap`/`expect`/index panics) are modelled by the
  `panicked` constructor of `PanicOr`.
-/

/-- BLS12-381 base-field modulus (the 381-bit prime `q`). -/
def qBLS : Nat :=
  4002409555221667393417789825735904156556882819939007885332058136124031650490837864442687629129015664037894272559787

/-- BLS12-381 scalar-field modulus (the curve group order `r`). -/
def rBLS : Nat :=
  52435875175126190479447740508185965837690552500527637822603658699938581184513

/-- BN254 scalar-field modulus (the order of `Bn254Fr`). -/
def rBN : Nat :=
  21888242871839275222246405745257275088548364400416034343698204186575808495617

instance : NeZero qBLS := ⟨by decide⟩
instance : NeZero rBLS := ⟨by decide⟩
instance : NeZero rBN := ⟨by decide⟩

/-- Arkworks `Fr` for BLS12-381 (`BlsFr`): a residue modulo `rBLS`. -/
abbrev BlsFr := ZMod rBLS

/-- Arkworks `Fq` for BLS12-381: a residue modulo `qBLS`. -/
abbrev Fq := ZMod qBLS

/-- blst scalar `blst_fr`, modelled by its semantic residue modulo `rBLS`
(the spec's bridge-boundary form). -/
abbrev Blst_fr := ZMod rBLS

/-- Little-endian byte expansion of a natural number, `k` bytes
(`to_le_bytes` / arkworks `serialize` byte layout). -/
def leBytes : Nat → Nat → List Nat
  | 0, _ => []
  | k + 1, v => v % 256 :: leBytes k (v / 256)

/-- `u64::from_le_bytes` on a byte list: little-endian recomposition. -/
def fromLeBytes (l : List Nat) : Nat :=
  l.foldr (fun b acc => acc * 256 + b) 0

/-- `u64::from_be_bytes` on a byte list: big-endian recomposition. -/
def fromBeBytes (l : List Nat) : Nat :=
  l.foldl (fun acc b => acc * 256 + b) 0

/-! ### BN254 `split_to_two_frs` (bn254/utils.rs) -/

/-- BN254 scalar field element (`Bn254Fr`): a residue modulo `rBN`. -/
abbrev Bn254Fr := ZMod rBN

/-- Result of a Rust computation that can panic. -/
inductive PanicOr (α : Type) where
  | panicked : PanicOr α
  | ok : α → PanicOr α
deriving DecidableEq

/-- The fastcrypto error type (only the variant this module can produce). -/
inductive FastCryptoError where
  | invalidInput : FastCryptoError
deriving DecidableEq

/-- `split_to_two_frs` (bn254/utils.rs): split the byte slice at
`len - 16`, interpret each half as a big-endian integer and reduce into
`Bn254Fr`.  For slices shorter than 16 bytes the `usize` expression
`eph_pk_bytes.len() - 16` underflows and `split_at` panics; that branch is
the `panicked` value. -/
def split_to_two_frs (eph_pk_bytes : List Nat) :
    PanicOr (Except FastCryptoError (Bn254Fr × Bn254Fr)) :=
  if 16 ≤ eph_pk_bytes.length then
    let first_half := eph_pk_bytes.take (eph_pk_bytes.length - 16)
    let second_half := eph_pk_bytes.drop (eph_pk_bytes.length - 16)
    PanicOr.ok (Except.ok
      (((fromBeBytes first_half : Nat) : Bn254Fr),
       ((fromBeBytes second_half : Nat) : Bn254Fr)))
  else PanicOr.panicked

/-! ### Zcash base-field byte codec (conversions.rs) -/

/-- Limb `i` of the canonical 384-bit representative (`into_repr().0[i]`,
little-endian limb order). -/
def repLimb (v i : Nat) : Nat := v / 2 ^ (64 * i) % 2 ^ 64

/-- `u64::to_be_bytes`. -/
def beBytes8 (w : Nat) : List Nat :=
  [w / 2 ^ 56 % 256, w / 2 ^ 48 % 256, w / 2 ^ 40 % 256, w / 2 ^ 32 % 256,
   w / 2 ^ 24 % 256, w / 2 ^ 16 % 256, w / 2 ^ 8 % 256, w % 256]

/-- `bls_fq_to_zcash_bytes` (conversions.rs): write the six limbs of
`into_repr` most-significant first, each as 8 big-endian bytes (the
sequential `copy_from_slice` calls fill the 48-byte buffer exactly with
this concatenation). -/
def bls_fq_to_zcash_bytes (field : Fq) : List Nat :=
  beBytes8 (repLimb field.val 5) ++ beBytes8 (repLimb field.val 4) ++
  beBytes8 (repLimb field.val 3) ++ beBytes8 (repLimb field.val 2) ++
  beBytes8 (repLimb field.val 1) ++ beBytes8 (repLimb field.val 0)

/-- `bls_fq_from_zcash_bytes` (conversions.rs): read six big-endian limbs
into a 384-bit integer; `Fq::from_repr` accepts it only below the
modulus (no reduction). -/
def bls_fq_from_zcash_bytes (bytes : List Nat) : Option Fq :=
  let l5 := fromBeBytes (bytes.take 8)
  let l4 := fromBeBytes ((bytes.drop 8).take 8)
  let l3 := fromBeBytes ((bytes.drop 16).take 8)
  let l2 := fromBeBytes ((bytes.drop 24).take 8)
  let l1 := fromBeBytes ((bytes.drop 32).take 8)
  let l0 := fromBeBytes ((bytes.drop 40).take 8)
  let v := l0 + l1 * 2 ^ 64 + l2 * 2 ^ 128 + l3 * 2 ^ 192 + l4 * 2 ^ 256 +
    l5 * 2 ^ 320
  if v < qBLS then some ((v : Nat) : Fq) else none

/-! ### Encoding flags (conversions.rs) -/

/-- The three flag bits of a Zcash-encoded point. -/
structure EncodingFlags where
  is_compressed : Bool
  is_infinity : Bool
  is_lexicographically_largest : Bool
deriving DecidableEq

/-- `impl From<&[u8]> for EncodingFlags`: read bits 7, 6, 5 of byte 0. -/
def EncodingFlags.ofBytes (bytes : List Nat) : EncodingFlags :=
  { is_compressed := (bytes.getD 0 0 >>> 7) &&& 1 == 1
    is_infinity := (bytes.getD 0 0 >>> 6) &&& 1 == 1
    is_lexicographically_largest := (bytes.getD 0 0 >>> 5) &&& 1 == 1 }

/-- `EncodingFlags::encode_flags`: OR the flag bits into byte 0
(conditionally, in the order of the source). -/
def EncodingFlags.encode_flags (f : EncodingFlags) (bytes : List Nat) :
    List Nat :=
  let b1 := if f.is_compressed then
    bytes.set 0 (bytes.getD 0 0 ||| (1 <<< 7)) else bytes
  let b2 := if f.is_infinity then
    b1.set 0 (b1.getD 0 0 ||| (1 <<< 6)) else b1
  if f.is_compressed && !f.is_infinity && f.is_lexicographically_largest then
    b2.set 0 (b2.getD 0 0 ||| (1 <<< 5))
  else b2

/-! ### Affine points and the arkworks `get_point_from_x` -/

/-- Arkworks comparison on `Fq` (`Ord` compares `into_repr()`, i.e. the
canonical representatives). -/
def Fq.ltb (a b : Fq) : Bool := decide (a.val < b.val)

/-- Model of the arkworks `sqrt` on `Fq`: some square root when one
exists, `none` otherwise.  Which of the two roots arkworks returns is
irrelevant below because `get_point_from_x` re-normalizes the root with
the `greatest` flag; this model returns the root with the least canonical
representative. -/
def Fq.sqrt (a : Fq) : Option Fq :=
  (((Finset.range qBLS).filter
      (fun n => ((n : Nat) : Fq) * ((n : Nat) : Fq) = a)).min).map
    (fun n => ((n : Nat) : Fq))

/-- Arkworks `G1Affine` for BLS12-381. -/
structure G1 where
  x : Fq
  y : Fq
  infinity : Bool
deriving DecidableEq

/-- `G1Affine::default()` (= `zero()`): `(0, 1, true)`. -/
def G1.zero : G1 := ⟨0, 1, true⟩

/-- `GroupAffine::get_point_from_x` for G1 (a = 0, b = 4): compute
`x^3 + b`, take a square root, pick the root selected by `greatest`. -/
def G1.get_point_from_x (x : Fq) (greatest : Bool) : Option G1 :=
  let x3b := (0 : Fq) + x * x * x + 4
  (Fq.sqrt x3b).map (fun y =>
    let negy := -y
    ⟨x, if xor (Fq.ltb y negy) greatest then y else negy, false⟩)

/-- Arkworks `Fq2` (`QuadExtField`): `c0 + c1 * u` with `u ^ 2 = -1`. -/
structure Fq2 where
  c0 : Fq
  c1 : Fq
deriving DecidableEq

instance : Zero Fq2 := ⟨⟨0, 0⟩⟩
instance : One Fq2 := ⟨⟨1, 0⟩⟩
instance : Add Fq2 := ⟨fun a b => ⟨a.c0 + b.c0, a.c1 + b.c1⟩⟩
instance : Neg Fq2 := ⟨fun a => ⟨-a.c0, -a.c1⟩⟩

/-- Multiplication in `Fq2` with non-residue `-1`:
`(a0 + a1 u)(b0 + b1 u) = (a0 b0 - a1 b1) + (a0 b1 + a1 b0) u`. -/
instance : Mul Fq2 :=
  ⟨fun a b => ⟨a.c0 * b.c0 - a.c1 * b.c1, a.c0 * b.c1 + a.c1 * b.c0⟩⟩

theorem Fq2.add_def (a b : Fq2) : a + b = ⟨a.c0 + b.c0, a.c1 + b.c1⟩ := rfl

theorem Fq2.mul_def (a b : Fq2) :
    a * b = ⟨a.c0 * b.c0 - a.c1 * b.c1, a.c0 * b.c1 + a.c1 * b.c0⟩ := rfl

theorem Fq2.neg_def (a : Fq2) : -a = ⟨-a.c0, -a.c1⟩ := rfl

theorem Fq2.zero_def : (0 : Fq2) = ⟨0, 0⟩ := rfl

theorem Fq2.one_def : (1 : Fq2) = ⟨1, 0⟩ := rfl

/-- The tower field `Fq2` is a commutative ring under the componentwise
addition and the `u ^ 2 = -1` multiplication. -/
instance : CommRing Fq2 where
  add_assoc a b c := by
    refine congrArg₂ Fq2.mk ?_ ?_ <;>
      (try simp only [Fq2.add_def, Fq2.mul_def, Fq2.neg_def, Fq2.zero_def,
        Fq2.one_def]) <;> ring
  zero_add a := by
    refine congrArg₂ Fq2.mk ?_ ?_ <;>
      (try simp only [Fq2.add_def, Fq2.mul_def, Fq2.neg_def, Fq2.zero_def,
        Fq2.one_def]) <;> ring
  add_zero a := by
    refine congrArg₂ Fq2.mk ?_ ?_ <;>
      (try simp only [Fq2.add_def, Fq2.mul_def, Fq2.neg_def, Fq2.zero_def,
        Fq2.one_def]) <;> ring
  add_comm a b := by
    refine congrArg₂ Fq2.mk ?_ ?_ <;>
      (try simp only [Fq2.add_def, Fq2.mul_def, Fq2.neg_def, Fq2.zero_def,
        Fq2.one_def]) <;> ring
  left_distrib a b c := by
    refine congrArg₂ Fq2.mk ?_ ?_ <;>
      (try simp only [Fq2.add_def, Fq2.mul_def, Fq2.neg_def, Fq2.zero_def,
        Fq2.one_def]) <;> ring
  right_distrib a b c := by
    refine congrArg₂ Fq2.mk ?_ ?_ <;>
      (try simp only [Fq2.add_def, Fq2.mul_def, Fq2.neg_def, Fq2.zero_def,
        Fq2.one_def]) <;> ring
  zero_mul a := by
    refine congrArg₂ Fq2.mk ?_ ?_ <;>
      (try simp only [Fq2.add_def, Fq2.mul_def, Fq2.neg_def, Fq2.zero_def,
        Fq2.one_def]) <;> ring
  mul_zero a := by
    refine congrArg₂ Fq2.mk ?_ ?_ <;>
      (try simp only [Fq2.add_def, Fq2.mul_def, Fq2.neg_def, Fq2.zero_def,
        Fq2.one_def]) <;> ring
  mul_assoc a b c := by
    refine congrArg₂ Fq2.mk ?_ ?_ <;>
      (try simp only [Fq2.add_def, Fq2.mul_def, Fq2.neg_def, Fq2.zero_def,
        Fq2.one_def]) <;> ring
  one_mul a := by
    refine congrArg₂ Fq2.mk ?_ ?_ <;>
      (try simp only [Fq2.add_def, Fq2.mul_def, Fq2.neg_def, Fq2.zero_def,
        Fq2.one_def]) <;> ring
  mul_one a := by
    refine congrArg₂ Fq2.mk ?_ ?_ <;>
      (try simp only [Fq2.add_def, Fq2.mul_def, Fq2.neg_def, Fq2.zero_def,
        Fq2.one_def]) <;> ring
  mul_comm a b := by
    refine congrArg₂ Fq2.mk ?_ ?_ <;>
      (try simp only [Fq2.add_def, Fq2.mul_def, Fq2.neg_def, Fq2.zero_def,
        Fq2.one_def]) <;> ring
  neg_add_cancel a := by
    refine congrArg₂ Fq2.mk ?_ ?_ <;>
      (try simp only [Fq2.add_def, Fq2.mul_def, Fq2.neg_def, Fq2.zero_def,
        Fq2.one_def]) <;> ring
  nsmul := nsmulRec
  zsmul := zsmulRec

/-- Fast modular exponentiation by binary splitting of the exponent, with
an explicit recursion fuel (used to state and check the primality
certificates for the field moduli by kernel computation). -/
def powModAux (m : Nat) : Nat → Nat → Nat → Nat
  | 0, _, _ => 1 % m
  | fuel + 1, b, e =>
    if e = 0 then 1 % m
    else
      let r := powModAux m fuel (b * b % m) (e / 2)
      if e % 2 = 1 then r * b % m else r

/-- Validity of an arkworks `G1Affine` value: the identity is the
canonical `(0, 1, infinity)` triple, and a finite point satisfies the
curve equation `y ^ 2 = x ^ 3 + 4`. -/
def G1.valid (p : G1) : Prop :=
  (p.infinity = true → p = G1.zero) ∧
  (p.infinity = false → p.y * p.y = (0 : Fq) + p.x * p.x * p.x + 4)

instance (p : G1) : Decidable (G1.valid p) := by
  unfold G1.valid
  infer_instance

/-- Arkworks `Ord` on `Fq2`: compare `c1` first, then `c0`. -/
def Fq2.ltb (a b : Fq2) : Bool :=
  decide (a.c1.val < b.c1.val ∨ (a.c1.val = b.c1.val ∧ a.c0.val < b.c0.val))

/-- Unpacking of an index below `qBLS ^ 2` into an `Fq2` element (used
only to model the square root search space). -/
def Fq2.ofIdx (n : Nat) : Fq2 := ⟨((n % qBLS : Nat) : Fq), ((n / qBLS : Nat) : Fq)⟩

/-- Model of the arkworks `sqrt` on `Fq2`: some square root when one
exists, `none` otherwise (the root choice is irrelevant below, as for
`Fq.sqrt`). -/
def Fq2.sqrt (a : Fq2) : Option Fq2 :=
  (((Finset.range (qBLS * qBLS)).filter
      (fun n => Fq2.ofIdx n * Fq2.ofIdx n = a)).min).map Fq2.ofIdx

/-- Arkworks `G2Affine` for BLS12-381. -/
structure G2 where
  x : Fq2
  y : Fq2
  infinity : Bool
deriving DecidableEq

/-- `G2Affine::default()` (= `zero()`): `(0, 1, true)` in `Fq2`. -/
def G2.zero : G2 := ⟨0, 1, true⟩

/-- `COEFF_B` for the BLS12-381 G2 curve: `4 + 4 u`. -/
def G2b : Fq2 := ⟨4, 4⟩

/-- `GroupAffine::get_point_from_x` for G2 (a = 0, b = `G2b`). -/
def G2.get_point_from_x (x : Fq2) (greatest : Bool) : Option G2 :=
  let x3b := (0 : Fq2) + x * x * x + G2b
  (Fq2.sqrt x3b).map (fun y =>
    let negy := -y
    ⟨x, if xor (Fq2.ltb y negy) greatest then y else negy, false⟩)

/-- Validity of an arkworks `G2Affine` value: the identity is the
canonical `(0, 1, infinity)` triple, and a finite point satisfies the
curve equation `y ^ 2 = x ^ 3 + (4 + 4 u)`. -/
def G2.valid (p : G2) : Prop :=
  (p.infinity = true → p = G2.zero) ∧
  (p.infinity = false → p.y * p.y = (0 : Fq2) + p.x * p.x * p.x + G2b)

instance (p : G2) : Decidable (G2.valid p) := by
  unfold G2.valid
  infer_instance

/-! ### The Zcash point codec (conversions.rs) -/

/-- `bls_g1_affine_from_zcash_bytes`: decode a compressed G1 point. -/
def bls_g1_affine_from_zcash_bytes (bytes : List Nat) : Option G1 :=
  let flags := EncodingFlags.ofBytes bytes
  if !flags.is_compressed then none
  else if flags.is_infinity then some G1.zero
  else
    let tmp := bytes.take 48
    let tmp := tmp.set 0 (tmp.getD 0 0 &&& 31)
    match bls_fq_from_zcash_bytes tmp with
    | none => none
    | some x => G1.get_point_from_x x flags.is_lexicographically_largest

/-- `bls_g1_affine_to_zcash_bytes`: encode a G1 point (x-coordinate bytes,
then the flag bits; `is_lexicographically_largest` is `p.y > -p.y`). -/
def bls_g1_affine_to_zcash_bytes (p : G1) : List Nat :=
  EncodingFlags.encode_flags
    ⟨true, p.infinity, Fq.ltb (-p.y) p.y⟩
    (bls_fq_to_zcash_bytes p.x)

/-- `bls_g2_affine_from_zcash_bytes`: decode a compressed G2 point
(`xc1` from bytes 0–47 after masking the flag bits, `xc0` from bytes
48–95). -/
def bls_g2_affine_from_zcash_bytes (bytes : List Nat) : Option G2 :=
  let flags := EncodingFlags.ofBytes bytes
  if !flags.is_compressed then none
  else if flags.is_infinity then some G2.zero
  else
    let tmp1 := bytes.take 48
    let tmp1 := tmp1.set 0 (tmp1.getD 0 0 &&& 31)
    match bls_fq_from_zcash_bytes tmp1 with
    | none => none
    | some xc1 =>
      match bls_fq_from_zcash_bytes ((bytes.drop 48).take 48) with
      | none => none
      | some xc0 =>
        G2.get_point_from_x ⟨xc0, xc1⟩ flags.is_lexicographically_largest

/-- `bls_g2_affine_to_zcash_bytes`: encode a G2 point: `x.c1` bytes into
the first 48 positions, `x.c0` bytes into the last 48, then the flags. -/
def bls_g2_affine_to_zcash_bytes (p : G2) : List Nat :=
  EncodingFlags.encode_flags
    ⟨true, p.infinity, Fq2.ltb (-p.y) p.y⟩
    (bls_fq_to_zcash_bytes p.x.c1 ++ bls_fq_to_zcash_bytes p.x.c0)

/-! ### blst base-field import (conversions.rs, `blst_fp_to_bls_fq`) -/

/-- The physical `blst_fp` struct: six 64-bit words.  `blst_uint64_from_fp`
exposes them at the bridge boundary in plain little-endian word order (the
spec's boundary form). -/
structure BlstFp where
  l : List Nat
deriving DecidableEq

/-- Value of six 64-bit words in little-endian word order, as read by
`as_byte_slice` + 48-byte little-endian import. -/
def wordsVal6 (w : List Nat) : Nat :=
  w.getD 0 0 + w.getD 1 0 * 2 ^ 64 + w.getD 2 0 * 2 ^ 128 +
    w.getD 3 0 * 2 ^ 192 + w.getD 4 0 * 2 ^ 256 + w.getD 5 0 * 2 ^ 320

/-- Arkworks `<Fq as FromBytes>::read`: read a 384-bit little-endian
integer and accept it only if it is a canonical representative
(`from_repr` returns `None` at or above the modulus — no reduction). -/
def fqRead (v : Nat) : Option Fq :=
  if v < qBLS then some ((v : Nat) : Fq) else none

/-- `blst_fp_to_bls_fq` (conversions.rs): extract the six words,
reinterpret as 48 little-endian bytes, `Fq::read(bytes).unwrap()`.
The `unwrap` of the decoding error is a panic, modelled by `panicked`. -/
def blst_fp_to_bls_fq (f : BlstFp) : PanicOr Fq :=
  match fqRead (wordsVal6 f.l) with
  | some x => PanicOr.ok x
  | none => PanicOr.panicked

theorem leBytes_length (k v : Nat) : (leBytes k v).length = k := by
  induction k generalizing v with
  | zero => rfl
  | succ k ih => simp [leBytes, ih]

theorem fromLeBytes_leBytes (k v : Nat) :
    fromLeBytes (leBytes k v) = v % 256 ^ k := by
  induction k generalizing v with
  | zero => simp [leBytes, fromLeBytes, Nat.mod_one]
  | succ k ih =>
    simp only [leBytes, fromLeBytes, List.foldr_cons]
    have h1 := ih (v / 256)
    simp only [fromLeBytes] at h1
    rw [h1, pow_succ, Nat.mul_comm (256 ^ k) 256, Nat.mod_mul]
    ring

theorem leBytes_split (a b v : Nat) :
    leBytes (a + b) v = leBytes a v ++ leBytes b (v / 256 ^ a) := by
  induction a generalizing v with
  | zero => simp [leBytes]
  | succ a ih =>
    have : a + 1 + b = (a + b) + 1 := by omega
    rw [this]
    simp only [leBytes, List.cons_append, ih (v / 256)]
    rw [Nat.div_div_eq_div_mul, pow_succ, Nat.mul_comm (256 ^ a) 256]

theorem fromLeBytes_append (l1 l2 : List Nat) :
    fromLeBytes (l1 ++ l2) = fromLeBytes l1 + 256 ^ l1.length * fromLeBytes l2 := by
  induction l1 with
  | nil => simp [fromLeBytes]
  | cons b l1 ih =>
    simp only [fromLeBytes, List.cons_append, List.foldr_cons, List.length_cons] at *
    rw [ih, pow_succ]
    ring

/-- `u64s_from_bytes` (conversions.rs): interpret a 32-byte buffer as four
little-endian 64-bit words. -/
def u64s_from_bytes (bytes : List Nat) : List Nat :=
  [fromLeBytes ((bytes.drop 0).take 8),
   fromLeBytes ((bytes.drop 8).take 8),
   fromLeBytes ((bytes.drop 16).take 8),
   fromLeBytes ((bytes.drop 24).take 8)]

/-- Value of four 64-bit words taken in little-endian word order. -/
def wordsVal4 (w : List Nat) : Nat :=
  w.getD 0 0 + w.getD 1 0 * 2 ^ 64 + w.getD 2 0 * 2 ^ 128 + w.getD 3 0 * 2 ^ 192

/-- blst `blst_fr_from_uint64`: load four little-endian words and reduce
modulo the scalar order (blst stores the Montgomery form; the semantic
residue is the word value mod `rBLS`). -/
def blst_fr_from_uint64 (w : List Nat) : Blst_fr :=
  ((wordsVal4 w : Nat) : ZMod rBLS)

/-- blst `blst_uint64_from_fr`: the canonical representative as four
little-endian 64-bit words. -/
def blst_uint64_from_fr (fe : Blst_fr) : List Nat :=
  [fe.val % 2 ^ 64, fe.val / 2 ^ 64 % 2 ^ 64, fe.val / 2 ^ 128 % 2 ^ 64,
   fe.val / 2 ^ 192 % 2 ^ 64]

/-- Arkworks `serialize_with_flags .. EmptyFlags` on `BlsFr`: the 32
little-endian bytes of the canonical representative. -/
def blsFrSerialize (fe : BlsFr) : List Nat :=
  leBytes 32 fe.val

/-- `bls_fr_to_blst_fr` (conversions.rs): serialize to 32 little-endian
bytes, reinterpret as four 64-bit words, load them into a `blst_fr`. -/
def bls_fr_to_blst_fr (fe : BlsFr) : Blst_fr :=
  blst_fr_from_uint64 (u64s_from_bytes (blsFrSerialize fe))

/-- `as_byte_slice` on `[u64; 4]`: each word to little-endian bytes,
words in order. -/
def wordsToLeBytes (w : List Nat) : List Nat :=
  w.flatMap (fun x => leBytes 8 x)

/-- Arkworks `from_le_bytes_mod_order` on `BlsFr`: read the bytes as a
little-endian integer and reduce modulo the field order. -/
def blsFrFromLeBytesModOrder (bytes : List Nat) : BlsFr :=
  ((fromLeBytes bytes : Nat) : ZMod rBLS)

/-- `blst_fr_to_bls_fr` (conversions.rs): extract the four words,
reinterpret as little-endian bytes, reduce into `BlsFr`. -/
def blst_fr_to_bls_fr (fe : Blst_fr) : BlsFr :=
  blsFrFromLeBytesModOrder (wordsToLeBytes (blst_uint64_from_fr fe))

theorem u64s_from_bytes_leBytes (v : Nat) :
    u64s_from_bytes (leBytes 32 v) =
      [v % 2 ^ 64, v / 2 ^ 64 % 2 ^ 64, v / 2 ^ 128 % 2 ^ 64,
       v / 2 ^ 192 % 2 ^ 64] := by
  have hsplit : leBytes 32 v =
      leBytes 8 v ++ (leBytes 8 (v / 2 ^ 64) ++ (leBytes 8 (v / 2 ^ 128) ++
        leBytes 8 (v / 2 ^ 192))) := by
    have h1 : leBytes 32 v = leBytes 8 v ++ leBytes 24 (v / 256 ^ 8) :=
      leBytes_split 8 24 v
    have h2 : leBytes 24 (v / 256 ^ 8) =
        leBytes 8 (v / 256 ^ 8) ++ leBytes 16 (v / 256 ^ 8 / 256 ^ 8) :=
      leBytes_split 8 16 (v / 256 ^ 8)
    have h3 : leBytes 16 (v / 256 ^ 8 / 256 ^ 8) =
        leBytes 8 (v / 256 ^ 8 / 256 ^ 8) ++
          leBytes 8 (v / 256 ^ 8 / 256 ^ 8 / 256 ^ 8) :=
      leBytes_split 8 8 (v / 256 ^ 8 / 256 ^ 8)
    rw [h1, h2, h3]
    norm_num [Nat.div_div_eq_div_mul]
  have hlen : ∀ w : Nat, (leBytes 8 w).length = 8 := fun w => leBytes_length 8 w
  have htake : ∀ (w : Nat) (rest : List Nat),
      (leBytes 8 w ++ rest).take 8 = leBytes 8 w := by
    intro w rest
    rw [List.take_append_of_le_length (by rw [hlen]), List.take_of_length_le (by rw [hlen])]
  have hdrop : ∀ (w : Nat) (rest : List Nat),
      (leBytes 8 w ++ rest).drop 8 = rest := by
    intro w rest
    rw [List.drop_append_of_le_length (by rw [hlen]), List.drop_of_length_le (by rw [hlen]),
      List.nil_append]
  have hval : ∀ w : Nat, fromLeBytes (leBytes 8 w) = w % 2 ^ 64 := by
    intro w
    rw [fromLeBytes_leBytes]
    norm_num
  have hd8 : (leBytes 32 v).drop 8 =
      leBytes 8 (v / 2 ^ 64) ++ (leBytes 8 (v / 2 ^ 128) ++ leBytes 8 (v / 2 ^ 192)) := by
    rw [hsplit]; exact hdrop _ _
  have hd16 : (leBytes 32 v).drop 16 =
      leBytes 8 (v / 2 ^ 128) ++ leBytes 8 (v / 2 ^ 192) := by
    rw [show (16 : Nat) = 8 + 8 from rfl, ← List.drop_drop 8 8, hd8]
    exact hdrop _ _
  have hd24 : (leBytes 32 v).drop 24 = leBytes 8 (v / 2 ^ 192) := by
    rw [show (24 : Nat) = 16 + 8 from rfl, ← List.drop_drop 8 16, hd16]
    exact hdrop _ _
  have ht24 : ((leBytes 32 v).drop 24).take 8 = leBytes 8 (v / 2 ^ 192) := by
    rw [hd24, List.take_of_length_le (by rw [hlen])]
  have ht0 : (leBytes 32 v).take 8 = leBytes 8 v := by
    rw [hsplit]; exact htake _ _
  simp only [u64s_from_bytes, List.drop_zero, ht0, hd8, hd16, ht24, htake, hval]

theorem wordsVal4_digits (v : Nat) :
    wordsVal4 [v % 2 ^ 64, v / 2 ^ 64 % 2 ^ 64, v / 2 ^ 128 % 2 ^ 64,
      v / 2 ^ 192 % 2 ^ 64] = v % 2 ^ 256 := by
  simp only [wordsVal4, List.getD, List.getElem?_cons_zero, List.getElem?_cons_succ,
    Option.getD_some]
  norm_num
  omega

/-- Claim helper: the forward scalar conversion is the identity on residues. -/
theorem bls_fr_to_blst_fr_eq (x : BlsFr) : bls_fr_to_blst_fr x = x := by
  have hv : x.val < 2 ^ 256 := by
    have := ZMod.val_lt x
    have hr : rBLS < 2 ^ 256 := by norm_num [rBLS]
    omega
  rw [bls_fr_to_blst_fr, blsFrSerialize, u64s_from_bytes_leBytes,
    blst_fr_from_uint64, wordsVal4_digits, Nat.mod_eq_of_lt hv]
  exact ZMod.natCast_rightInverse x

/-- Claim helper: the backward scalar conversion is the identity on residues. -/
theorem blst_fr_to_bls_fr_eq (x : Blst_fr) : blst_fr_to_bls_fr x = x := by
  have hv : x.val < 2 ^ 256 := by
    have := ZMod.val_lt x
    have hr : rBLS < 2 ^ 256 := by norm_num [rBLS]
    omega
  rw [blst_fr_to_bls_fr, blst_uint64_from_fr, wordsToLeBytes]
  have hflat : [x.val % 2 ^ 64, x.val / 2 ^ 64 % 2 ^ 64, x.val / 2 ^ 128 % 2 ^ 64,
      x.val / 2 ^ 192 % 2 ^ 64].flatMap (fun w => leBytes 8 w) =
      leBytes 8 (x.val % 2 ^ 64) ++ (leBytes 8 (x.val / 2 ^ 64 % 2 ^ 64) ++
        (leBytes 8 (x.val / 2 ^ 128 % 2 ^ 64) ++ leBytes 8 (x.val / 2 ^ 192 % 2 ^ 64))) := by
    simp [List.flatMap]
  rw [hflat, blsFrFromLeBytesModOrder]
  rw [fromLeBytes_append, fromLeBytes_append, fromLeBytes_append]
  simp only [leBytes_length, fromLeBytes_leBytes]
  have : x.val % 2 ^ 64 % 256 ^ 8 + 256 ^ 8 *
      (x.val / 2 ^ 64 % 2 ^ 64 % 256 ^ 8 + 256 ^ 8 *
        (x.val / 2 ^ 128 % 2 ^ 64 % 256 ^ 8 + 256 ^ 8 *
          (x.val / 2 ^ 192 % 2 ^ 64 % 256 ^ 8))) = x.val := by
    norm_num
    omega
  rw [this]
  exact ZMod.natCast_rightInverse x

/-- C2. Converting a BLS12-381 scalar field element to the blst
representation and back returns the original element. -/
theorem claim_C2_scalar_roundtrip (x : BlsFr) :
    blst_fr_to_bls_fr (bls_fr_to_blst_fr x) = x := by
  rw [bls_fr_to_blst_fr_eq, blst_fr_to_bls_fr_eq]

/-! ### Bitwise helper lemmas -/

theorem shiftand_testBit (b k : Nat) : ((b >>> k) &&& 1 == 1) = b.testBit k := by
  simp [Nat.testBit, Nat.and_one_is_mod]

theorem lor_mod_two_pow (a m k : Nat) (hm : m % 2 ^ k = 0) :
    (a ||| m) % 2 ^ k = a % 2 ^ k := by
  apply Nat.eq_of_testBit_eq
  intro i
  rw [Nat.testBit_mod_two_pow, Nat.testBit_mod_two_pow, Nat.testBit_lor]
  rcases Nat.lt_or_ge i k with h | h
  · have hmi : m.testBit i = false := by
      have h2 := Nat.testBit_mod_two_pow m k i
      rw [hm] at h2
      simp only [Nat.zero_testBit, decide_eq_true h, Bool.true_and] at h2
      exact h2.symm
    simp [hmi]
  · simp [decide_eq_false (Nat.not_lt.2 h)]

theorem lor_shiftRight_eq (a m k : Nat) (hm : m < 2 ^ k) :
    (a ||| m) >>> k = a >>> k := by
  apply Nat.eq_of_testBit_eq
  intro i
  rw [Nat.testBit_shiftRight, Nat.testBit_shiftRight, Nat.testBit_lor]
  have hmi : m.testBit (k + i) = false :=
    Nat.testBit_lt_two_pow
      (lt_of_lt_of_le hm (Nat.pow_le_pow_right (by norm_num) (by omega)))
  simp [hmi]

theorem tb_lor_true (a m k : Nat) (hm : m.testBit k = true) :
    (a ||| m).testBit k = true := by
  simp [Nat.testBit_lor, hm]

theorem tb_lor_false (a m k : Nat) (hm : m.testBit k = false) :
    (a ||| m).testBit k = a.testBit k := by
  simp [Nat.testBit_lor, hm]

/-! ### C10: `split_to_two_frs` -/

/-- C10. `split_to_two_frs` never returns the error variant: a slice of
length at least 16 yields `Ok` with the two halves split at `len - 16`,
each read big-endian into `Bn254Fr`; a shorter slice panics (the `usize`
underflow in `split_at`) instead of returning `Err`. -/
theorem claim_C10_split_to_two_frs :
    (∀ bytes : List Nat, 16 ≤ bytes.length →
      split_to_two_frs bytes = PanicOr.ok (Except.ok
        (((fromBeBytes (bytes.take (bytes.length - 16)) : Nat) : Bn254Fr),
         ((fromBeBytes (bytes.drop (bytes.length - 16)) : Nat) : Bn254Fr)))) ∧
    (∀ bytes : List Nat, bytes.length < 16 →
      split_to_two_frs bytes = PanicOr.panicked) ∧
    (∀ (bytes : List Nat) (e : FastCryptoError),
      split_to_two_frs bytes ≠ PanicOr.ok (Except.error e)) := by
  refine ⟨fun bytes h => ?_, fun bytes h => ?_, fun bytes e => ?_⟩
  · simp [split_to_two_frs, h]
  · simp [split_to_two_frs, Nat.not_le.2 h]
  · by_cases h : 16 ≤ bytes.length <;> simp [split_to_two_frs, h]

/-- Witness for C10 at concrete inputs. -/
theorem claim_C10_split_to_two_frs_witness :
    split_to_two_frs (List.replicate 16 1) = PanicOr.ok (Except.ok
      (((fromBeBytes ((List.replicate 16 1).take
          ((List.replicate 16 1 : List Nat).length - 16)) : Nat) : Bn254Fr),
       ((fromBeBytes ((List.replicate 16 1).drop
          ((List.replicate 16 1 : List Nat).length - 16)) : Nat) : Bn254Fr))) ∧
    split_to_two_frs [0] = PanicOr.panicked :=
  ⟨claim_C10_split_to_two_frs.1 (List.replicate 16 1) (by decide),
   claim_C10_split_to_two_frs.2.1 [0] (by decide)⟩

/-! ### C3: `blst_fp_to_bls_fq` out-of-range behaviour -/

/-- C3, counterexample to the claim as stated.  The claim says an
out-of-range 48-byte pattern makes `blst_fp_to_bls_fq` return a
recoverable "no value" decoding error and not a fatal abort.  At the
all-ones word array (value `2^384 - 1`, far above the modulus) the
function panics: the inner `Fq::read` error is hit by `.unwrap()`. -/
theorem claim_C3_counterexample :
    qBLS ≤ wordsVal6 (List.replicate 6 (2 ^ 64 - 1)) ∧
    blst_fp_to_bls_fq ⟨List.replicate 6 (2 ^ 64 - 1)⟩ = PanicOr.panicked := by
  exact ⟨by decide, by decide⟩

/-- C3 as amended: whenever the 48 little-endian bytes read from the six
words encode an integer at or above the base-field modulus, the inner
byte import fails with a "no value" decoding error (never a silent
reduction), and the surrounding conversion turns that error into a panic
(`unwrap`), a fatal abort; below the modulus the conversion is exact. -/
theorem claim_C3_out_of_range (f : BlstFp) :
    (qBLS ≤ wordsVal6 f.l →
      fqRead (wordsVal6 f.l) = none ∧
      blst_fp_to_bls_fq f = PanicOr.panicked) ∧
    (wordsVal6 f.l < qBLS →
      blst_fp_to_bls_fq f = PanicOr.ok ((wordsVal6 f.l : Nat) : Fq)) := by
  constructor
  · intro h
    have hr : fqRead (wordsVal6 f.l) = none := by
      simp [fqRead, Nat.not_lt.2 h]
    exact ⟨hr, by simp [blst_fp_to_bls_fq, hr]⟩
  · intro h
    simp [blst_fp_to_bls_fq, fqRead, h]

/-- Witness for C3 (amended) at concrete inputs. -/
theorem claim_C3_out_of_range_witness :
    (qBLS ≤ wordsVal6 (List.replicate 6 (2 ^ 64 - 1)) ∧
      fqRead (wordsVal6 (List.replicate 6 (2 ^ 64 - 1))) = none ∧
      blst_fp_to_bls_fq ⟨List.replicate 6 (2 ^ 64 - 1)⟩ = PanicOr.panicked) ∧
    (wordsVal6 [7, 0, 0, 0, 0, 0] < qBLS ∧
      blst_fp_to_bls_fq ⟨[7, 0, 0, 0, 0, 0]⟩ =
        PanicOr.ok ((wordsVal6 [7, 0, 0, 0, 0, 0] : Nat) : Fq)) := by
  refine ⟨⟨by decide, ?_, ?_⟩, ⟨by decide, ?_⟩⟩
  · exact ((claim_C3_out_of_range ⟨List.replicate 6 (2 ^ 64 - 1)⟩).1 (by decide)).1
  · exact ((claim_C3_out_of_range ⟨List.replicate 6 (2 ^ 64 - 1)⟩).1 (by decide)).2
  · exact (claim_C3_out_of_range ⟨[7, 0, 0, 0, 0, 0]⟩).2 (by decide)

/-! ### C8: `EncodingFlags::encode_flags` -/

/-- C8. `encode_flags` ORs bit 7 into byte 0 exactly when
`is_compressed`, bit 6 exactly when `is_infinity`, and bit 5 exactly when
compressed and not infinite and `is_lexicographically_largest` (never for
infinity or uncompressed flags); it modifies only the top three bits of
byte 0, leaving its lower five bits (`% 32`) and higher bits (`>>> 8`)
and all remaining bytes unchanged. -/
theorem claim_C8_encode_flags (f : EncodingFlags) (b0 : Nat) (rest : List Nat) :
    ∃ b0' : Nat,
      EncodingFlags.encode_flags f (b0 :: rest) = b0' :: rest ∧
      b0'.testBit 7 = (b0.testBit 7 || f.is_compressed) ∧
      b0'.testBit 6 = (b0.testBit 6 || f.is_infinity) ∧
      b0'.testBit 5 = (b0.testBit 5 ||
        (f.is_compressed && !f.is_infinity && f.is_lexicographically_largest)) ∧
      b0' % 32 = b0 % 32 ∧
      b0' >>> 8 = b0 >>> 8 := by
  have h32 : (32 : Nat) = 2 ^ 5 := by norm_num
  obtain ⟨c, i, l⟩ := f
  cases c <;> cases i <;> cases l
  case false.false.false =>
    exact ⟨b0, by simp [EncodingFlags.encode_flags], by simp, by simp, by simp, rfl, rfl⟩
  case false.false.true =>
    exact ⟨b0, by simp [EncodingFlags.encode_flags], by simp, by simp, by simp, rfl, rfl⟩
  case false.true.false =>
    refine ⟨b0 ||| 64, by simp [EncodingFlags.encode_flags], ?_, ?_, ?_, ?_, ?_⟩
    · rw [tb_lor_false _ _ _ (by decide)]; simp
    · rw [tb_lor_true _ _ _ (by decide)]; simp
    · rw [tb_lor_false _ _ _ (by decide)]; simp
    · rw [h32]; exact lor_mod_two_pow _ _ _ (by decide)
    · exact lor_shiftRight_eq _ _ _ (by decide)
  case false.true.true =>
    refine ⟨b0 ||| 64, by simp [EncodingFlags.encode_flags], ?_, ?_, ?_, ?_, ?_⟩
    · rw [tb_lor_false _ _ _ (by decide)]; simp
    · rw [tb_lor_true _ _ _ (by decide)]; simp
    · rw [tb_lor_false _ _ _ (by decide)]; simp
    · rw [h32]; exact lor_mod_two_pow _ _ _ (by decide)
    · exact lor_shiftRight_eq _ _ _ (by decide)
  case true.false.false =>
    refine ⟨b0 ||| 128, by simp [EncodingFlags.encode_flags], ?_, ?_, ?_, ?_, ?_⟩
    · rw [tb_lor_true _ _ _ (by decide)]; simp
    · rw [tb_lor_false _ _ _ (by decide)]; simp
    · rw [tb_lor_false _ _ _ (by decide)]; simp
    · rw [h32]; exact lor_mod_two_pow _ _ _ (by decide)
    · exact lor_shiftRight_eq _ _ _ (by decide)
  case true.false.true =>
    refine ⟨(b0 ||| 128) ||| 32, by simp [EncodingFlags.encode_flags], ?_, ?_, ?_, ?_, ?_⟩
    · rw [tb_lor_false _ _ _ (by decide), tb_lor_true _ _ _ (by decide)]; simp
    · rw [tb_lor_false _ _ _ (by decide), tb_lor_false _ _ _ (by decide)]; simp
    · rw [tb_lor_true _ _ _ (by decide)]; simp
    · rw [h32, lor_mod_two_pow _ _ _ (by decide), lor_mod_two_pow _ _ _ (by decide)]
    · rw [lor_shiftRight_eq _ _ _ (by decide), lor_shiftRight_eq _ _ _ (by decide)]
  case true.true.false =>
    refine ⟨(b0 ||| 128) ||| 64, by simp [EncodingFlags.encode_flags], ?_, ?_, ?_, ?_, ?_⟩
    · rw [tb_lor_false _ _ _ (by decide), tb_lor_true _ _ _ (by decide)]; simp
    · rw [tb_lor_true _ _ _ (by decide)]; simp
    · rw [tb_lor_false _ _ _ (by decide), tb_lor_false _ _ _ (by decide)]; simp
    · rw [h32, lor_mod_two_pow _ _ _ (by decide), lor_mod_two_pow _ _ _ (by decide)]
    · rw [lor_shiftRight_eq _ _ _ (by decide), lor_shiftRight_eq _ _ _ (by decide)]
  case true.true.true =>
    refine ⟨(b0 ||| 128) ||| 64, by simp [EncodingFlags.encode_flags], ?_, ?_, ?_, ?_, ?_⟩
    · rw [tb_lor_false _ _ _ (by decide), tb_lor_true _ _ _ (by decide)]; simp
    · rw [tb_lor_true _ _ _ (by decide)]; simp
    · rw [tb_lor_false _ _ _ (by decide), tb_lor_false _ _ _ (by decide)]; simp
    · rw [h32, lor_mod_two_pow _ _ _ (by decide), lor_mod_two_pow _ _ _ (by decide)]
    · rw [lor_shiftRight_eq _ _ _ (by decide), lor_shiftRight_eq _ _ _ (by decide)]

/-! ### C5: uncompressed flag is rejected -/

theorem ofBytes_eq (bytes : List Nat) :
    EncodingFlags.ofBytes bytes =
      ⟨(bytes.getD 0 0).testBit 7, (bytes.getD 0 0).testBit 6,
       (bytes.getD 0 0).testBit 5⟩ := by
  unfold EncodingFlags.ofBytes
  rw [shiftand_testBit, shiftand_testBit, shiftand_testBit]

/-- C5. Whenever bit 7 (compression) of the flag byte is clear, both Zcash
decoders return `none`, regardless of the payload and the other flag
bits. -/
theorem claim_C5_uncompressed_rejected :
    (∀ bytes : List Nat, (bytes.getD 0 0).testBit 7 = false →
      bls_g1_affine_from_zcash_bytes bytes = none) ∧
    (∀ bytes : List Nat, (bytes.getD 0 0).testBit 7 = false →
      bls_g2_affine_from_zcash_bytes bytes = none) := by
  constructor
  · intro bytes h
    simp only [bls_g1_affine_from_zcash_bytes, ofBytes_eq, h]
    simp
  · intro bytes h
    simp only [bls_g2_affine_from_zcash_bytes, ofBytes_eq, h]
    simp

/-- Witness for C5 at concrete buffers (with the infinity bit even set,
and non-zero garbage in the payload). -/
theorem claim_C5_uncompressed_rejected_witness :
    ((((64 : Nat) :: List.replicate 47 9).getD 0 0).testBit 7 = false ∧
      bls_g1_affine_from_zcash_bytes (64 :: List.replicate 47 9) = none) ∧
    ((((64 : Nat) :: List.replicate 95 9).getD 0 0).testBit 7 = false ∧
      bls_g2_affine_from_zcash_bytes (64 :: List.replicate 95 9) = none) :=
  ⟨⟨by decide, claim_C5_uncompressed_rejected.1 _ (by decide)⟩,
   ⟨by decide, claim_C5_uncompressed_rejected.2 _ (by decide)⟩⟩

/-! ### C4: infinity short-circuit -/

/-- C4, counterexample to the claim as stated.  The claim asserts that any
buffer whose flag byte has the infinity bit (bit 6) set decodes to the
identity.  A buffer with bit 6 set but bit 7 (compression) clear is
rejected instead: the compression check runs first. -/
theorem claim_C4_counterexample :
    ((64 : Nat).testBit 6 = true) ∧
    bls_g1_affine_from_zcash_bytes (64 :: List.replicate 47 0) = none ∧
    bls_g1_affine_from_zcash_bytes (64 :: List.replicate 47 0) ≠
      some G1.zero := by
  refine ⟨by decide, ?_, ?_⟩ <;> decide

/-- C4 as amended: for every buffer whose flag byte has both the
compression bit (bit 7) and the infinity bit (bit 6) set, the decoders
return the identity point immediately, without inspecting or validating
any of the remaining payload bytes. -/
theorem claim_C4_infinity_short_circuit :
    (∀ bytes : List Nat, (bytes.getD 0 0).testBit 7 = true →
      (bytes.getD 0 0).testBit 6 = true →
      bls_g1_affine_from_zcash_bytes bytes = some G1.zero) ∧
    (∀ bytes : List Nat, (bytes.getD 0 0).testBit 7 = true →
      (bytes.getD 0 0).testBit 6 = true →
      bls_g2_affine_from_zcash_bytes bytes = some G2.zero) := by
  constructor
  · intro bytes h7 h6
    simp only [bls_g1_affine_from_zcash_bytes, ofBytes_eq, h7, h6]
    simp
  · intro bytes h7 h6
    simp only [bls_g2_affine_from_zcash_bytes, ofBytes_eq, h7, h6]
    simp

/-- Witness for C4 (amended) at concrete buffers carrying non-zero
garbage payloads. -/
theorem claim_C4_infinity_short_circuit_witness :
    bls_g1_affine_from_zcash_bytes (192 :: List.replicate 47 255) =
      some G1.zero ∧
    bls_g2_affine_from_zcash_bytes (192 :: List.replicate 95 255) =
      some G2.zero :=
  ⟨claim_C4_infinity_short_circuit.1 _ (by decide) (by decide),
   claim_C4_infinity_short_circuit.2 _ (by decide) (by decide)⟩

/-! ### C9: non-canonical encodings are accepted -/

/-- C9. The decoder accepts non-canonical encodings: two distinct 48-byte
buffers both decode to the G1 identity (any buffer with bits 7 and 6 of
byte 0 set short-circuits to the identity), so encode-after-decode is not
the identity on bytes. -/
theorem claim_C9_noncanonical_encodings :
    ((192 : Nat) :: List.replicate 47 0 : List Nat) ≠
      193 :: List.replicate 47 0 ∧
    bls_g1_affine_from_zcash_bytes (192 :: List.replicate 47 0) =
      some G1.zero ∧
    bls_g1_affine_from_zcash_bytes (193 :: List.replicate 47 0) =
      some G1.zero ∧
    bls_g1_affine_to_zcash_bytes G1.zero ≠ 193 :: List.replicate 47 0 := by
  refine ⟨by decide, by decide, by decide, ?_⟩
  decide

/-! ### C7: encoding the identity -/

/-- C7. Encoding the G1 identity yields exactly `0xC0` followed by 47 zero
bytes: flags `is_compressed = true`, `is_infinity = true`,
`is_lexicographically_largest = false`, all-zero payload. -/
theorem claim_C7_encode_identity :
    bls_g1_affine_to_zcash_bytes G1.zero = 192 :: List.replicate 47 0 ∧
    EncodingFlags.ofBytes (bls_g1_affine_to_zcash_bytes G1.zero) =
      ⟨true, true, false⟩ := by
  constructor <;> decide

/-! ### Byte-level round trip of the 48-byte base-field codec -/

theorem fromBeBytes_beBytes8 (w : Nat) :
    fromBeBytes (beBytes8 w) = w % 2 ^ 64 := by
  simp only [beBytes8, fromBeBytes, List.foldl]
  norm_num
  omega

theorem beBytes8_length (w : Nat) : (beBytes8 w).length = 8 := rfl

theorem take8_append (l rest : List Nat) (h : l.length = 8) :
    (l ++ rest).take 8 = l := by
  rw [List.take_append_of_le_length (by omega), List.take_of_length_le (by omega)]

theorem drop8_append (l rest : List Nat) (h : l.length = 8) :
    (l ++ rest).drop 8 = rest := by
  rw [List.drop_append_of_le_length (by omega), List.drop_of_length_le (by omega),
    List.nil_append]

theorem repLimb_lt (v i : Nat) : repLimb v i < 2 ^ 64 :=
  Nat.mod_lt _ (by norm_num)

theorem toZcash_reassoc (x : Fq) :
    bls_fq_to_zcash_bytes x =
      beBytes8 (repLimb x.val 5) ++ (beBytes8 (repLimb x.val 4) ++
        (beBytes8 (repLimb x.val 3) ++ (beBytes8 (repLimb x.val 2) ++
          (beBytes8 (repLimb x.val 1) ++ beBytes8 (repLimb x.val 0))))) := by
  simp [bls_fq_to_zcash_bytes, List.append_assoc]

theorem toZcash_length (x : Fq) : (bls_fq_to_zcash_bytes x).length = 48 := by
  rw [toZcash_reassoc]
  simp [beBytes8]

/-- The six 8-byte chunks of `bls_fq_to_zcash_bytes`. -/
theorem toZcash_chunks (x : Fq) :
    (bls_fq_to_zcash_bytes x).take 8 = beBytes8 (repLimb x.val 5) ∧
    ((bls_fq_to_zcash_bytes x).drop 8).take 8 = beBytes8 (repLimb x.val 4) ∧
    ((bls_fq_to_zcash_bytes x).drop 16).take 8 = beBytes8 (repLimb x.val 3) ∧
    ((bls_fq_to_zcash_bytes x).drop 24).take 8 = beBytes8 (repLimb x.val 2) ∧
    ((bls_fq_to_zcash_bytes x).drop 32).take 8 = beBytes8 (repLimb x.val 1) ∧
    ((bls_fq_to_zcash_bytes x).drop 40).take 8 = beBytes8 (repLimb x.val 0) := by
  have hd8 : (bls_fq_to_zcash_bytes x).drop 8 =
      beBytes8 (repLimb x.val 4) ++ (beBytes8 (repLimb x.val 3) ++
        (beBytes8 (repLimb x.val 2) ++ (beBytes8 (repLimb x.val 1) ++
          beBytes8 (repLimb x.val 0)))) := by
    rw [toZcash_reassoc]; exact drop8_append _ _ (beBytes8_length _)
  have hd16 : (bls_fq_to_zcash_bytes x).drop 16 =
      beBytes8 (repLimb x.val 3) ++ (beBytes8 (repLimb x.val 2) ++
        (beBytes8 (repLimb x.val 1) ++ beBytes8 (repLimb x.val 0))) := by
    rw [show (16 : Nat) = 8 + 8 from rfl, ← List.drop_drop 8 8, hd8]
    exact drop8_append _ _ (beBytes8_length _)
  have hd24 : (bls_fq_to_zcash_bytes x).drop 24 =
      beBytes8 (repLimb x.val 2) ++ (beBytes8 (repLimb x.val 1) ++
        beBytes8 (repLimb x.val 0)) := by
    rw [show (24 : Nat) = 16 + 8 from rfl, ← List.drop_drop 8 16, hd16]
    exact drop8_append _ _ (beBytes8_length _)
  have hd32 : (bls_fq_to_zcash_bytes x).drop 32 =
      beBytes8 (repLimb x.val 1) ++ beBytes8 (repLimb x.val 0) := by
    rw [show (32 : Nat) = 24 + 8 from rfl, ← List.drop_drop 8 24, hd24]
    exact drop8_append _ _ (beBytes8_length _)
  have hd40 : (bls_fq_to_zcash_bytes x).drop 40 = beBytes8 (repLimb x.val 0) := by
    rw [show (40 : Nat) = 32 + 8 from rfl, ← List.drop_drop 8 32, hd32]
    exact drop8_append _ _ (beBytes8_length _)
  refine ⟨?_, ?_, ?_, ?_, ?_, ?_⟩
  · rw [toZcash_reassoc]; exact take8_append _ _ (beBytes8_length _)
  · rw [hd8]; exact take8_append _ _ (beBytes8_length _)
  · rw [hd16]; exact take8_append _ _ (beBytes8_length _)
  · rw [hd24]; exact take8_append _ _ (beBytes8_length _)
  · rw [hd32]; exact take8_append _ _ (beBytes8_length _)
  · rw [hd40, List.take_of_length_le (by rw [beBytes8_length])]

/-- Recomposing the six limbs gives back the canonical representative. -/
theorem repLimb_recompose (v : Nat) (h : v < 2 ^ 384) :
    repLimb v 0 + repLimb v 1 * 2 ^ 64 + repLimb v 2 * 2 ^ 128 +
      repLimb v 3 * 2 ^ 192 + repLimb v 4 * 2 ^ 256 + repLimb v 5 * 2 ^ 320 =
      v := by
  simp only [repLimb]
  norm_num
  omega

/-- Decoding an encoded base-field element recovers it. -/
theorem bls_fq_from_to_zcash (x : Fq) :
    bls_fq_from_zcash_bytes (bls_fq_to_zcash_bytes x) = some x := by
  obtain ⟨h5, h4, h3, h2, h1, h0⟩ := toZcash_chunks x
  have hlt : x.val < 2 ^ 384 := by
    have := ZMod.val_lt x
    have : x.val < qBLS := this
    have hq : qBLS < 2 ^ 384 := by norm_num [qBLS]
    omega
  have hmod : ∀ i : Nat, repLimb x.val i % 2 ^ 64 = repLimb x.val i :=
    fun i => Nat.mod_eq_of_lt (repLimb_lt _ _)
  simp only [bls_fq_from_zcash_bytes, h5, h4, h3, h2, h1, h0,
    fromBeBytes_beBytes8, hmod, repLimb_recompose x.val hlt]
  rw [if_pos (ZMod.val_lt x)]
  rw [ZMod.natCast_rightInverse x]

/-! ### Flag byte arithmetic on encoded buffers -/

theorem flag_byte_facts (h0 : Nat) (hh : h0 < 32) :
    ((h0 ||| 128) &&& 31 = h0) ∧ (h0 ||| 128).testBit 7 = true ∧
      (h0 ||| 128).testBit 6 = false ∧ (h0 ||| 128).testBit 5 = false ∧
    (((h0 ||| 128) ||| 64) &&& 31 = h0) ∧
      ((h0 ||| 128) ||| 64).testBit 7 = true ∧
      ((h0 ||| 128) ||| 64).testBit 6 = true ∧
      ((h0 ||| 128) ||| 64).testBit 5 = false ∧
    (((h0 ||| 128) ||| 32) &&& 31 = h0) ∧
      ((h0 ||| 128) ||| 32).testBit 7 = true ∧
      ((h0 ||| 128) ||| 32).testBit 6 = false ∧
      ((h0 ||| 128) ||| 32).testBit 5 = true := by
  interval_cases h0 <;> decide

/-- The encoded x-coordinate starts with the byte `x.val / 2 ^ 376`, which
is below 32 (the modulus has 381 bits, so the top three bits of byte 0 are
free for the flags). -/
theorem toZcash_cons (x : Fq) :
    ∃ T : List Nat, bls_fq_to_zcash_bytes x = (x.val / 2 ^ 376) :: T ∧
      T.length = 47 ∧ x.val / 2 ^ 376 < 32 := by
  have hq : qBLS < 2 ^ 381 := by norm_num [qBLS]
  have hv : x.val < 2 ^ 381 := lt_trans (ZMod.val_lt x) hq
  have hhead : repLimb x.val 5 / 2 ^ 56 % 256 = x.val / 2 ^ 376 := by
    simp only [repLimb]
    norm_num
    omega
  have hlt : x.val / 2 ^ 376 < 32 := by omega
  obtain ⟨h0, T, hE⟩ : ∃ h0 T, bls_fq_to_zcash_bytes x = h0 :: T := by
    cases hC : bls_fq_to_zcash_bytes x with
    | nil =>
      have := toZcash_length x
      rw [hC] at this
      simp at this
    | cons a l => exact ⟨a, l, rfl⟩
  have hgd : (bls_fq_to_zcash_bytes x).getD 0 0 = x.val / 2 ^ 376 := by
    rw [toZcash_reassoc]
    simp only [beBytes8, List.cons_append, List.getD_cons_zero]
    exact hhead
  have hh0 : h0 = x.val / 2 ^ 376 := by
    rw [hE, List.getD_cons_zero] at hgd
    exact hgd
  have hlen : T.length = 47 := by
    have := toZcash_length x
    rw [hE] at this
    simpa using this
  exact ⟨T, by rw [hE, hh0], hlen, hlt⟩

/-- Master lemma: encoding the flags onto an encoded x-coordinate (with an
arbitrary trailing buffer) mutates exactly byte 0, and the three flag bits
and the masked payload read back correctly. -/
theorem encode_flags_on_toZcash (x : Fq) (inf lex : Bool) (rest : List Nat) :
    ∃ (b0' : Nat) (T : List Nat),
      bls_fq_to_zcash_bytes x = (x.val / 2 ^ 376) :: T ∧ T.length = 47 ∧
      EncodingFlags.encode_flags ⟨true, inf, lex⟩
        (bls_fq_to_zcash_bytes x ++ rest) = b0' :: (T ++ rest) ∧
      b0' &&& 31 = x.val / 2 ^ 376 ∧
      b0'.testBit 7 = true ∧ b0'.testBit 6 = inf ∧
      b0'.testBit 5 = (!inf && lex) := by
  obtain ⟨T, hE, hlen, hlt⟩ := toZcash_cons x
  obtain ⟨f1, f2, f3, f4, f5, f6, f7, f8, f9, f10, f11, f12⟩ :=
    flag_byte_facts (x.val / 2 ^ 376) hlt
  have happ : bls_fq_to_zcash_bytes x ++ rest =
      (x.val / 2 ^ 376) :: (T ++ rest) := by
    rw [hE, List.cons_append]
  cases inf <;> cases lex
  · exact ⟨x.val / 2 ^ 376 ||| 128, T, hE, hlen,
      by rw [happ]; simp [EncodingFlags.encode_flags], f1, f2, f3, f4⟩
  · exact ⟨(x.val / 2 ^ 376 ||| 128) ||| 32, T, hE, hlen,
      by rw [happ]; simp [EncodingFlags.encode_flags], f9, f10, f11, f12⟩
  · exact ⟨(x.val / 2 ^ 376 ||| 128) ||| 64, T, hE, hlen,
      by rw [happ]; simp [EncodingFlags.encode_flags], f5, f6, f7, f8⟩
  · exact ⟨(x.val / 2 ^ 376 ||| 128) ||| 64, T, hE, hlen,
      by rw [happ]; simp [EncodingFlags.encode_flags], f5, f6, f7, f8⟩

/-! ### C6: G2 component order on the wire -/

theorem g2_enc_def (p : G2) :
    bls_g2_affine_to_zcash_bytes p =
      EncodingFlags.encode_flags ⟨true, p.infinity, Fq2.ltb (-p.y) p.y⟩
        (bls_fq_to_zcash_bytes p.x.c1 ++ bls_fq_to_zcash_bytes p.x.c0) := rfl

/-- C6. On the wire, the G2 x-coordinate's `c1` component occupies bytes
0–47 (big-endian, flag bits in byte 0) and the `c0` component occupies
bytes 48–95: masking the flag bits off the first 48 bytes recovers `c1`
and the last 48 bytes decode to `c0`; and the decoder reads the two halves
back in exactly that order (`xc1` from the masked first 48 bytes, `xc0`
from the second 48). -/
theorem claim_C6_g2_component_order :
    (∀ p : G2,
      (bls_g2_affine_to_zcash_bytes p).drop 48 =
        bls_fq_to_zcash_bytes p.x.c0 ∧
      bls_fq_from_zcash_bytes
        (((bls_g2_affine_to_zcash_bytes p).take 48).set 0
          (((bls_g2_affine_to_zcash_bytes p).take 48).getD 0 0 &&& 31)) =
        some p.x.c1 ∧
      bls_fq_from_zcash_bytes ((bls_g2_affine_to_zcash_bytes p).drop 48) =
        some p.x.c0) ∧
    (∀ bytes : List Nat,
      (bytes.getD 0 0).testBit 7 = true → (bytes.getD 0 0).testBit 6 = false →
      bls_g2_affine_from_zcash_bytes bytes =
        match bls_fq_from_zcash_bytes
            ((bytes.take 48).set 0 ((bytes.take 48).getD 0 0 &&& 31)) with
        | none => none
        | some xc1 =>
          match bls_fq_from_zcash_bytes ((bytes.drop 48).take 48) with
          | none => none
          | some xc0 =>
            G2.get_point_from_x ⟨xc0, xc1⟩ ((bytes.getD 0 0).testBit 5)) := by
  constructor
  · intro p
    obtain ⟨b0', T, hE, hlen, hEnc, hmask, h7, h6, h5⟩ :=
      encode_flags_on_toZcash p.x.c1 p.infinity (Fq2.ltb (-p.y) p.y)
        (bls_fq_to_zcash_bytes p.x.c0)
    have henc : bls_g2_affine_to_zcash_bytes p =
        b0' :: (T ++ bls_fq_to_zcash_bytes p.x.c0) := by
      rw [g2_enc_def]; exact hEnc
    have hdrop : (bls_g2_affine_to_zcash_bytes p).drop 48 =
        bls_fq_to_zcash_bytes p.x.c0 := by
      rw [henc, show (48 : Nat) = 47 + 1 from rfl, List.drop_succ_cons,
        ← hlen, List.drop_left]
    have htake : (bls_g2_affine_to_zcash_bytes p).take 48 = b0' :: T := by
      rw [henc, show (48 : Nat) = 47 + 1 from rfl, List.take_succ_cons,
        ← hlen, List.take_left]
    refine ⟨hdrop, ?_, ?_⟩
    · rw [htake, List.getD_cons_zero, List.set_cons_zero, hmask, ← hE]
      exact bls_fq_from_to_zcash p.x.c1
    · rw [hdrop]
      exact bls_fq_from_to_zcash p.x.c0
  · intro bytes h7 h6
    simp only [bls_g2_affine_from_zcash_bytes, ofBytes_eq, h7, h6]
    simp

/-- Witness for the decoder part of C6 at a concrete buffer. -/
theorem claim_C6_g2_component_order_witness :
    bls_g2_affine_from_zcash_bytes (128 :: List.replicate 95 0) =
      match bls_fq_from_zcash_bytes
          (((128 :: List.replicate 95 0 : List Nat).take 48).set 0
            (((128 :: List.replicate 95 0 : List Nat).take 48).getD 0 0 &&& 31)) with
      | none => none
      | some xc1 =>
        match bls_fq_from_zcash_bytes
            (((128 :: List.replicate 95 0 : List Nat).drop 48).take 48) with
        | none => none
        | some xc0 =>
          G2.get_point_from_x ⟨xc0, xc1⟩
            (((128 :: List.replicate 95 0 : List Nat).getD 0 0).testBit 5) :=
  claim_C6_g2_component_order.2 (128 :: List.replicate 95 0)
    (by decide) (by decide)

/-! ### Modular exponentiation used by the primality certificates -/

theorem powModAux_correct (m : Nat) (hm : 0 < m) :
    ∀ (fuel e b : Nat), e < 2 ^ fuel → powModAux m fuel b e = b ^ e % m := by
  intro fuel
  induction fuel with
  | zero =>
    intro e b he
    have : e = 0 := by simpa using Nat.lt_one_iff.1 he
    subst this
    simp [powModAux]
  | succ fuel ih =>
    intro e b he
    by_cases h0 : e = 0
    · subst h0
      simp [powModAux]
    · have hpow : (2 : Nat) ^ (fuel + 1) = 2 * 2 ^ fuel := by ring
      have hdiv : e / 2 < 2 ^ fuel := by omega
      have hr := ih (e / 2) (b * b % m) hdiv
      have hbb : (b * b % m) ^ (e / 2) % m = (b * b) ^ (e / 2) % m :=
        (Nat.pow_mod (b * b) (e / 2) m).symm
      have hsq : (b * b) ^ (e / 2) = b ^ (2 * (e / 2)) := by
        rw [pow_mul]
        ring
      simp only [powModAux, h0, if_false]
      by_cases hodd : e % 2 = 1
      · have he2 : 2 * (e / 2) + 1 = e := by omega
        simp only [hodd, if_true, hr, hbb, hsq, Nat.mod_mul_mod]
        rw [← pow_succ, he2]
      · have he2 : 2 * (e / 2) = e := by omega
        simp only [hodd, if_false, hr, hbb, hsq, he2]

theorem zmod_pow_powModAux (n : Nat) [NeZero n] (b e fuel : Nat)
    (hf : e < 2 ^ fuel) :
    ((b : ZMod n)) ^ e = ((powModAux n fuel b e : Nat) : ZMod n) := by
  rw [powModAux_correct n (NeZero.pos n) fuel e b hf, ZMod.natCast_mod,
    Nat.cast_pow]

/-! ### Square-root completeness and root selection -/

theorem fq_sqrt_complete (a y : Fq) (hy : y * y = a) :
    ∃ y0 : Fq, Fq.sqrt a = some y0 ∧ y0 * y0 = a := by
  have hmem : y.val ∈ (Finset.range qBLS).filter
      (fun n => ((n : Nat) : Fq) * ((n : Nat) : Fq) = a) := by
    rw [Finset.mem_filter, Finset.mem_range]
    refine ⟨ZMod.val_lt y, ?_⟩
    rw [ZMod.natCast_rightInverse y]
    exact hy
  obtain ⟨n, hn⟩ := Finset.min_of_nonempty ⟨y.val, hmem⟩
  have hnmem := Finset.mem_of_min hn
  rw [Finset.mem_filter] at hnmem
  refine ⟨((n : Nat) : Fq), ?_, hnmem.2⟩
  rw [Fq.sqrt, hn]
  rfl

theorem fq2_ofIdx_pack (z : Fq2) : Fq2.ofIdx (z.c1.val * qBLS + z.c0.val) = z := by
  have h0 : z.c0.val < qBLS := ZMod.val_lt z.c0
  unfold Fq2.ofIdx
  have hmod : (z.c1.val * qBLS + z.c0.val) % qBLS = z.c0.val := by
    rw [Nat.mul_comm, Nat.mul_add_mod]
    exact Nat.mod_eq_of_lt h0
  have hdiv : (z.c1.val * qBLS + z.c0.val) / qBLS = z.c1.val := by
    rw [Nat.mul_comm, Nat.mul_add_div (NeZero.pos qBLS)]
    rw [Nat.div_eq_of_lt h0, Nat.add_zero]
  rw [hmod, hdiv]
  exact congrArg₂ Fq2.mk (ZMod.natCast_rightInverse z.c0)
    (ZMod.natCast_rightInverse z.c1)

theorem fq2_sqrt_complete (a y : Fq2) (hy : y * y = a) :
    ∃ y0 : Fq2, Fq2.sqrt a = some y0 ∧ y0 * y0 = a := by
  have hbound : y.c1.val * qBLS + y.c0.val < qBLS * qBLS := by
    have h0 : y.c0.val < qBLS := ZMod.val_lt y.c0
    have h1 : y.c1.val < qBLS := ZMod.val_lt y.c1
    calc y.c1.val * qBLS + y.c0.val < y.c1.val * qBLS + qBLS := by omega
      _ = (y.c1.val + 1) * qBLS := by ring
      _ ≤ qBLS * qBLS := Nat.mul_le_mul_right _ (by omega)
  have hmem : y.c1.val * qBLS + y.c0.val ∈ (Finset.range (qBLS * qBLS)).filter
      (fun n => Fq2.ofIdx n * Fq2.ofIdx n = a) := by
    rw [Finset.mem_filter, Finset.mem_range]
    refine ⟨hbound, ?_⟩
    rw [fq2_ofIdx_pack y]
    exact hy
  obtain ⟨n, hn⟩ := Finset.min_of_nonempty ⟨_, hmem⟩
  have hnmem := Finset.mem_of_min hn
  rw [Finset.mem_filter] at hnmem
  refine ⟨Fq2.ofIdx n, ?_, hnmem.2⟩
  rw [Fq2.sqrt, hn]
  rfl

theorem fq_ltb_asymm (a b : Fq) (h : Fq.ltb a b = true) : Fq.ltb b a = false := by
  simp only [Fq.ltb, decide_eq_true_eq] at h
  simp only [Fq.ltb, decide_eq_false_iff_not]
  omega

theorem fq_ltb_total_eq (a b : Fq) (h1 : Fq.ltb a b = false)
    (h2 : Fq.ltb b a = false) : a = b := by
  simp only [Fq.ltb, decide_eq_false_iff_not] at h1 h2
  exact ZMod.val_injective _ (by omega)

theorem fq2_ltb_asymm (a b : Fq2) (h : Fq2.ltb a b = true) :
    Fq2.ltb b a = false := by
  simp only [Fq2.ltb, decide_eq_true_eq] at h
  simp only [Fq2.ltb, decide_eq_false_iff_not]
  omega

theorem fq2_ltb_total_eq (a b : Fq2) (h1 : Fq2.ltb a b = false)
    (h2 : Fq2.ltb b a = false) : a = b := by
  simp only [Fq2.ltb, decide_eq_false_iff_not] at h1 h2
  have e1 : a.c1 = b.c1 := ZMod.val_injective _ (by omega)
  have e0 : a.c0 = b.c0 := ZMod.val_injective _ (by omega)
  cases a
  cases b
  simp_all

/-- The root selected by `get_point_from_x`'s conditional is the original
y-coordinate, given any root of the same square and the encoder's
`greatest` flag. -/
theorem fq_root_choice (py y0 : Fq) (hmem : py = y0 ∨ py = -y0) :
    (if xor (Fq.ltb y0 (-y0)) (Fq.ltb (-py) py) then y0 else -y0) = py := by
  rcases hmem with h | h
  · subst h
    cases hlt : Fq.ltb py (-py) with
    | true =>
      rw [fq_ltb_asymm _ _ hlt]
      rfl
    | false =>
      cases hgt : Fq.ltb (-py) py with
      | true => rfl
      | false =>
        have := fq_ltb_total_eq _ _ hlt hgt
        simpa using this.symm
  · subst h
    rw [neg_neg, Bool.xor_self]
    rfl

theorem fq2_root_choice (py y0 : Fq2) (hmem : py = y0 ∨ py = -y0) :
    (if xor (Fq2.ltb y0 (-y0)) (Fq2.ltb (-py) py) then y0 else -y0) = py := by
  rcases hmem with h | h
  · subst h
    cases hlt : Fq2.ltb py (-py) with
    | true =>
      rw [fq2_ltb_asymm _ _ hlt]
      rfl
    | false =>
      cases hgt : Fq2.ltb (-py) py with
      | true => rfl
      | false =>
        have := fq2_ltb_total_eq _ _ hlt hgt
        simpa using this.symm
  · subst h
    rw [neg_neg, Bool.xor_self]
    rfl

/-! ### Byte-level reduction of decode-after-encode -/

theorem g1_decode_encode_finite (p : G1) (hinf : p.infinity = false) :
    bls_g1_affine_from_zcash_bytes (bls_g1_affine_to_zcash_bytes p) =
      G1.get_point_from_x p.x (Fq.ltb (-p.y) p.y) := by
  obtain ⟨b0', T, hE, hlen, hEnc, hmask, h7, h6, h5⟩ :=
    encode_flags_on_toZcash p.x false (Fq.ltb (-p.y) p.y) []
  rw [List.append_nil, List.append_nil] at hEnc
  have henc : bls_g1_affine_to_zcash_bytes p = b0' :: T := by
    show EncodingFlags.encode_flags ⟨true, p.infinity, Fq.ltb (-p.y) p.y⟩
        (bls_fq_to_zcash_bytes p.x) = b0' :: T
    rw [hinf]
    exact hEnc
  have hof : EncodingFlags.ofBytes (b0' :: T) =
      ⟨true, false, Fq.ltb (-p.y) p.y⟩ := by
    rw [ofBytes_eq, List.getD_cons_zero, h7, h6, h5]
    simp
  have htk : (b0' :: T).take 48 = b0' :: T := by
    apply List.take_of_length_le
    simp [hlen]
  rw [henc]
  simp only [bls_g1_affine_from_zcash_bytes, hof, htk, List.getD_cons_zero,
    List.set_cons_zero, hmask, ← hE, bls_fq_from_to_zcash]
  simp

theorem g2_decode_encode_finite (p : G2) (hinf : p.infinity = false) :
    bls_g2_affine_from_zcash_bytes (bls_g2_affine_to_zcash_bytes p) =
      G2.get_point_from_x p.x (Fq2.ltb (-p.y) p.y) := by
  obtain ⟨b0', T, hE, hlen, hEnc, hmask, h7, h6, h5⟩ :=
    encode_flags_on_toZcash p.x.c1 p.infinity (Fq2.ltb (-p.y) p.y)
      (bls_fq_to_zcash_bytes p.x.c0)
  rw [hinf] at h6
  rw [hinf] at h5
  have henc : bls_g2_affine_to_zcash_bytes p =
      b0' :: (T ++ bls_fq_to_zcash_bytes p.x.c0) := by
    rw [g2_enc_def]
    exact hEnc
  have hof : EncodingFlags.ofBytes
      (b0' :: (T ++ bls_fq_to_zcash_bytes p.x.c0)) =
      ⟨true, false, Fq2.ltb (-p.y) p.y⟩ := by
    rw [ofBytes_eq, List.getD_cons_zero, h7, h6, h5]
    simp
  have htake : (b0' :: (T ++ bls_fq_to_zcash_bytes p.x.c0)).take 48 =
      b0' :: T := by
    rw [show (48 : Nat) = 47 + 1 from rfl, List.take_succ_cons, ← hlen,
      List.take_left]
  have hdrop : (b0' :: (T ++ bls_fq_to_zcash_bytes p.x.c0)).drop 48 =
      bls_fq_to_zcash_bytes p.x.c0 := by
    rw [show (48 : Nat) = 47 + 1 from rfl, List.drop_succ_cons, ← hlen,
      List.drop_left]
  have htk0 : (bls_fq_to_zcash_bytes p.x.c0).take 48 =
      bls_fq_to_zcash_bytes p.x.c0 := by
    apply List.take_of_length_le
    rw [toZcash_length]
  have hx : Fq2.mk p.x.c0 p.x.c1 = p.x := rfl
  rw [henc]
  simp only [bls_g2_affine_from_zcash_bytes, hof, htake, hdrop, htk0,
    List.getD_cons_zero, List.set_cons_zero, hmask, ← hE,
    bls_fq_from_to_zcash, hx]
  simp

/-! ### Root recovery (conditional on primality of the base modulus) -/

theorem fq_two_roots (hq : Nat.Prime qBLS) (a b : Fq) (h : a * a = b * b) :
    a = b ∨ a = -b := by
  haveI : Fact (Nat.Prime qBLS) := ⟨hq⟩
  have hf : (a - b) * (a + b) = 0 := by
    have hexp : (a - b) * (a + b) = a * a - b * b := by ring
    rw [hexp, h, sub_self]
  rcases mul_eq_zero.1 hf with h1 | h1
  · left
    exact sub_eq_zero.1 h1
  · right
    exact eq_neg_of_add_eq_zero_left h1

/-- `-1` is not a square in `Fq` (the modulus is `3 mod 4`). -/
theorem fq_neg_one_not_square (hq : Nat.Prime qBLS) :
    ¬ IsSquare (-1 : Fq) := by
  haveI : Fact (Nat.Prime qBLS) := ⟨hq⟩
  rw [ZMod.exists_sq_eq_neg_one_iff]
  norm_num [qBLS]

/-- A vanishing norm forces the `Fq2` element to vanish. -/
theorem fq2_norm_eq_zero (hq : Nat.Prime qBLS) (z : Fq2)
    (h : z.c0 * z.c0 + z.c1 * z.c1 = 0) : z = 0 := by
  haveI : Fact (Nat.Prime qBLS) := ⟨hq⟩
  by_cases h1 : z.c1 = 0
  · have h0 : z.c0 * z.c0 = 0 := by
      rw [h1] at h
      simpa using h
    have h0' : z.c0 = 0 := by
      rcases mul_eq_zero.1 h0 with h' | h' <;> exact h'
    cases z
    simp_all [Fq2.zero_def]
  · exfalso
    apply fq_neg_one_not_square hq
    refine ⟨z.c0 * z.c1⁻¹, ?_⟩
    have hinv : z.c1 * z.c1⁻¹ = 1 := mul_inv_cancel₀ h1
    have hsq : z.c0 * z.c0 = -(z.c1 * z.c1) := by
      linear_combination h
    calc (-1 : Fq) = -(z.c1 * z.c1) * (z.c1⁻¹ * z.c1⁻¹) := by
          rw [neg_mul]
          rw [show z.c1 * z.c1 * (z.c1⁻¹ * z.c1⁻¹) =
            (z.c1 * z.c1⁻¹) * (z.c1 * z.c1⁻¹) from by ring, hinv]
          simp
      _ = (z.c0 * z.c0) * (z.c1⁻¹ * z.c1⁻¹) := by rw [← hsq]
      _ = z.c0 * z.c1⁻¹ * (z.c0 * z.c1⁻¹) := by ring

/-- `Fq2` has no zero divisors. -/
theorem fq2_mul_eq_zero (hq : Nat.Prime qBLS) (z w : Fq2) (h : z * w = 0) :
    z = 0 ∨ w = 0 := by
  haveI : Fact (Nat.Prime qBLS) := ⟨hq⟩
  have hc0 : z.c0 * w.c0 - z.c1 * w.c1 = 0 := congrArg Fq2.c0 h
  have hc1 : z.c0 * w.c1 + z.c1 * w.c0 = 0 := congrArg Fq2.c1 h
  have hnorm : (z.c0 * z.c0 + z.c1 * z.c1) * (w.c0 * w.c0 + w.c1 * w.c1) = 0 := by
    linear_combination (z.c0 * w.c0 - z.c1 * w.c1) * hc0 +
      (z.c0 * w.c1 + z.c1 * w.c0) * hc1
  rcases mul_eq_zero.1 hnorm with hn | hn
  · exact Or.inl (fq2_norm_eq_zero hq z hn)
  · exact Or.inr (fq2_norm_eq_zero hq w hn)

theorem fq2_two_roots (hq : Nat.Prime qBLS) (a b : Fq2) (h : a * a = b * b) :
    a = b ∨ a = -b := by
  have hf : (a - b) * (a + b) = 0 := by
    have hexp : (a - b) * (a + b) = a * a - b * b := by ring
    rw [hexp, h, sub_self]
  rcases fq2_mul_eq_zero hq _ _ hf with h1 | h1
  · left
    exact sub_eq_zero.1 h1
  · right
    exact eq_neg_of_add_eq_zero_left h1

theorem g1_get_point_roundtrip (hq : Nat.Prime qBLS) (p : G1)
    (hcurve : p.y * p.y = (0 : Fq) + p.x * p.x * p.x + 4)
    (hinf : p.infinity = false) :
    G1.get_point_from_x p.x (Fq.ltb (-p.y) p.y) = some p := by
  obtain ⟨y0, hs, hsq⟩ := fq_sqrt_complete _ p.y hcurve
  have hmem : p.y = y0 ∨ p.y = -y0 :=
    fq_two_roots hq p.y y0 (by rw [hcurve, ← hsq])
  simp only [G1.get_point_from_x, hs, Option.map_some']
  rw [fq_root_choice p.y y0 hmem]
  cases p with
  | mk x y inf =>
    simp only at hinf
    rw [hinf]

theorem g2_get_point_roundtrip (hq : Nat.Prime qBLS) (p : G2)
    (hcurve : p.y * p.y = (0 : Fq2) + p.x * p.x * p.x + G2b)
    (hinf : p.infinity = false) :
    G2.get_point_from_x p.x (Fq2.ltb (-p.y) p.y) = some p := by
  obtain ⟨y0, hs, hsq⟩ := fq2_sqrt_complete _ p.y hcurve
  have hmem : p.y = y0 ∨ p.y = -y0 :=
    fq2_two_roots hq p.y y0 (by rw [hcurve, ← hsq])
  simp only [G2.get_point_from_x, hs, Option.map_some']
  rw [fq2_root_choice p.y y0 hmem]
  cases p with
  | mk x y inf =>
    simp only at hinf
    rw [hinf]

theorem g1_roundtrip_valid (hq : Nat.Prime qBLS) (p : G1) (hv : G1.valid p) :
    bls_g1_affine_from_zcash_bytes (bls_g1_affine_to_zcash_bytes p) =
      some p := by
  obtain ⟨hi, hf⟩ := hv
  cases hE : p.infinity with
  | false =>
    rw [g1_decode_encode_finite p hE]
    exact g1_get_point_roundtrip hq p (hf hE) hE
  | true =>
    rw [hi hE]
    decide

theorem g2_roundtrip_valid (hq : Nat.Prime qBLS) (p : G2) (hv : G2.valid p) :
    bls_g2_affine_from_zcash_bytes (bls_g2_affine_to_zcash_bytes p) =
      some p := by
  obtain ⟨hi, hf⟩ := hv
  cases hE : p.infinity with
  | false =>
    rw [g2_decode_encode_finite p hE]
    exact g2_get_point_roundtrip hq p (hf hE) hE
  | true =>
    rw [hi hE]
    decide

/-! ### Generic pieces of the Lucas primality certificates -/

theorem natCast_ne_one (n x : Nat) [NeZero n] (hlt : x < n) (hne : x ≠ 1)
    (hn : 1 < n) : ((x : Nat) : ZMod n) ≠ 1 := by
  haveI : Fact (1 < n) := ⟨hn⟩
  intro h
  have hv := congrArg ZMod.val h
  rw [ZMod.val_cast_of_lt hlt, ZMod.val_one] at hv
  exact hne hv

theorem pow_eq_one_of_powModAux (n a e fuel : Nat) [NeZero n]
    (hf : e < 2 ^ fuel) (hpow : powModAux n fuel a e = 1) :
    ((a : Nat) : ZMod n) ^ e = 1 := by
  rw [zmod_pow_powModAux n a e fuel hf, hpow, Nat.cast_one]

theorem pow_ne_one_of_powModAux (n a e fuel : Nat) [NeZero n]
    (hf : e < 2 ^ fuel) (hlt : powModAux n fuel a e < n)
    (hne : powModAux n fuel a e ≠ 1) (hn : 1 < n) :
    ((a : Nat) : ZMod n) ^ e ≠ 1 := by
  rw [zmod_pow_powModAux n a e fuel hf]
  exact natCast_ne_one n _ hlt hne hn

/-! ### Primality certificate for the BLS12-381 base modulus

A Pratt-style chain of Lucas certificates: each theorem certifies one
prime of the tree via a primitive-root witness; the modular
exponentiations are checked by kernel computation through `powModAux`,
and the small primes of the tree are certified by `norm_num`. -/

set_option maxRecDepth 40000 in
theorem prime_1686913 : Nat.Prime 1686913 := by
  haveI : NeZero (1686913 : Nat) := ⟨by decide⟩
  have hb : (1686913 : Nat) - 1 < 2 ^ 23 := by norm_num
  have h1 : (1686913 : Nat) - 1 =
      2 ^ 7 * (3 * (23 * (191))) := by norm_num
  apply lucas_primality 1686913 ((10 : Nat) : ZMod 1686913)
  · exact pow_eq_one_of_powModAux 1686913 10 (1686913 - 1) 23 hb (by decide)
  · intro l hl hld
    have hcases : l = 2 ∨ l = 3 ∨ l = 23 ∨ l = 191 := by
      rw [h1] at hld
      rcases (Nat.Prime.dvd_mul hl).1 hld with h | h
      · exact Or.inl ((Nat.prime_dvd_prime_iff_eq hl (by norm_num)).1 (hl.dvd_of_dvd_pow h))
      rcases (Nat.Prime.dvd_mul hl).1 h with h | h
      · exact Or.inr (Or.inl ((Nat.prime_dvd_prime_iff_eq hl (by norm_num)).1 h))
      rcases (Nat.Prime.dvd_mul hl).1 h with h | h
      · exact Or.inr (Or.inr (Or.inl ((Nat.prime_dvd_prime_iff_eq hl (by norm_num)).1 h)))
      · exact Or.inr (Or.inr (Or.inr ((Nat.prime_dvd_prime_iff_eq hl (by norm_num)).1 h)))
    have hfe : ((1686913 : Nat) - 1) / l < 2 ^ 23 :=
      lt_of_le_of_lt (Nat.div_le_self _ _) hb
    rcases hcases with rfl | rfl | rfl | rfl <;>
      exact pow_ne_one_of_powModAux 1686913 10 _ 23 hfe (by decide)
        (by decide) (by norm_num)

set_option maxRecDepth 40000 in
theorem prime_51376543 : Nat.Prime 51376543 := by
  haveI : NeZero (51376543 : Nat) := ⟨by decide⟩
  have hb : (51376543 : Nat) - 1 < 2 ^ 28 := by norm_num
  have h1 : (51376543 : Nat) - 1 =
      2 * (3 * (7 * (151 * (8101)))) := by norm_num
  apply lucas_primality 51376543 ((3 : Nat) : ZMod 51376543)
  · exact pow_eq_one_of_powModAux 51376543 3 (51376543 - 1) 28 hb (by decide)
  · intro l hl hld
    have hcases : l = 2 ∨ l = 3 ∨ l = 7 ∨ l = 151 ∨ l = 8101 := by
      rw [h1] at hld
      rcases (Nat.Prime.dvd_mul hl).1 hld with h | h
      · exact Or.inl ((Nat.prime_dvd_prime_iff_eq hl (by norm_num)).1 h)
      rcases (Nat.Prime.dvd_mul hl).1 h with h | h
      · exact Or.inr (Or.inl ((Nat.prime_dvd_prime_iff_eq hl (by norm_num)).1 h))
      rcases (Nat.Prime.dvd_mul hl).1 h with h | h
      · exact Or.inr (Or.inr (Or.inl ((Nat.prime_dvd_prime_iff_eq hl (by norm_num)).1 h)))
      rcases (Nat.Prime.dvd_mul hl).1 h with h | h
      · exact Or.inr (Or.inr (Or.inr (Or.inl ((Nat.prime_dvd_prime_iff_eq hl (by norm_num)).1 h))))
      · exact Or.inr (Or.inr (Or.inr (Or.inr ((Nat.prime_dvd_prime_iff_eq hl (by norm_num)).1 h))))
    have hfe : ((51376543 : Nat) - 1) / l < 2 ^ 28 :=
      lt_of_le_of_lt (Nat.div_le_self _ _) hb
    rcases hcases with rfl | rfl | rfl | rfl | rfl <;>
      exact pow_ne_one_of_powModAux 51376543 3 _ 28 hfe (by decide)
        (by decide) (by norm_num)

set_option maxRecDepth 40000 in
theorem prime_52437899 : Nat.Prime 52437899 := by
  haveI : NeZero (52437899 : Nat) := ⟨by decide⟩
  have hb : (52437899 : Nat) - 1 < 2 ^ 28 := by norm_num
  have h1 : (52437899 : Nat) - 1 =
      2 * (43 * (609743)) := by norm_num
  apply lucas_primality 52437899 ((2 : Nat) : ZMod 52437899)
  · exact pow_eq_one_of_powModAux 52437899 2 (52437899 - 1) 28 hb (by decide)
  · intro l hl hld
    have hcases : l = 2 ∨ l = 43 ∨ l = 609743 := by
      rw [h1] at hld
      rcases (Nat.Prime.dvd_mul hl).1 hld with h | h
      · exact Or.inl ((Nat.prime_dvd_prime_iff_eq hl (by norm_num)).1 h)
      rcases (Nat.Prime.dvd_mul hl).1 h with h | h
      · exact Or.inr (Or.inl ((Nat.prime_dvd_prime_iff_eq hl (by norm_num)).1 h))
      · exact Or.inr (Or.inr ((Nat.prime_dvd_prime_iff_eq hl (by norm_num)).1 h))
    have hfe : ((52437899 : Nat) - 1) / l < 2 ^ 28 :=
      lt_of_le_of_lt (Nat.div_le_self _ _) hb
    rcases hcases with rfl | rfl | rfl <;>
      exact pow_ne_one_of_powModAux 52437899 2 _ 28 hfe (by decide)
        (by decide) (by norm_num)

set_option maxRecDepth 40000 in
theorem prime_475709467 : Nat.Prime 475709467 := by
  haveI : NeZero (475709467 : Nat) := ⟨by decide⟩
  have hb : (475709467 : Nat) - 1 < 2 ^ 31 := by norm_num
  have h1 : (475709467 : Nat) - 1 =
      2 * (3 * (47 * (1686913))) := by norm_num
  apply lucas_primality 475709467 ((2 : Nat) : ZMod 475709467)
  · exact pow_eq_one_of_powModAux 475709467 2 (475709467 - 1) 31 hb (by decide)
  · intro l hl hld
    have hcases : l = 2 ∨ l = 3 ∨ l = 47 ∨ l = 1686913 := by
      rw [h1] at hld
      rcases (Nat.Prime.dvd_mul hl).1 hld with h | h
      · exact Or.inl ((Nat.prime_dvd_prime_iff_eq hl (by norm_num)).1 h)
      rcases (Nat.Prime.dvd_mul hl).1 h with h | h
      · exact Or.inr (Or.inl ((Nat.prime_dvd_prime_iff_eq hl (by norm_num)).1 h))
      rcases (Nat.Prime.dvd_mul hl).1 h with h | h
      · exact Or.inr (Or.inr (Or.inl ((Nat.prime_dvd_prime_iff_eq hl (by norm_num)).1 h)))
      · exact Or.inr (Or.inr (Or.inr ((Nat.prime_dvd_prime_iff_eq hl (prime_1686913)).1 h)))
    have hfe : ((475709467 : Nat) - 1) / l < 2 ^ 31 :=
      lt_of_le_of_lt (Nat.div_le_self _ _) hb
    rcases hcases with rfl | rfl | rfl | rfl <;>
      exact pow_ne_one_of_powModAux 475709467 2 _ 31 hfe (by decide)
        (by decide) (by norm_num)

set_option maxRecDepth 40000 in
theorem prime_927093389 : Nat.Prime 927093389 := by
  haveI : NeZero (927093389 : Nat) := ⟨by decide⟩
  have hb : (927093389 : Nat) - 1 < 2 ^ 32 := by norm_num
  have h1 : (927093389 : Nat) - 1 =
      2 ^ 2 * (13 * (409 * (43591))) := by norm_num
  apply lucas_primality 927093389 ((3 : Nat) : ZMod 927093389)
  · exact pow_eq_one_of_powModAux 927093389 3 (927093389 - 1) 32 hb (by decide)
  · intro l hl hld
    have hcases : l = 2 ∨ l = 13 ∨ l = 409 ∨ l = 43591 := by
      rw [h1] at hld
      rcases (Nat.Prime.dvd_mul hl).1 hld with h | h
      · exact Or.inl ((Nat.prime_dvd_prime_iff_eq hl (by norm_num)).1 (hl.dvd_of_dvd_pow h))
      rcases (Nat.Prime.dvd_mul hl).1 h with h | h
      · exact Or.inr (Or.inl ((Nat.prime_dvd_prime_iff_eq hl (by norm_num)).1 h))
      rcases (Nat.Prime.dvd_mul hl).1 h with h | h
      · exact Or.inr (Or.inr (Or.inl ((Nat.prime_dvd_prime_iff_eq hl (by norm_num)).1 h)))
      · exact Or.inr (Or.inr (Or.inr ((Nat.prime_dvd_prime_iff_eq hl (by norm_num)).1 h)))
    have hfe : ((927093389 : Nat) - 1) / l < 2 ^ 32 :=
      lt_of_le_of_lt (Nat.div_le_self _ _) hb
    rcases hcases with rfl | rfl | rfl | rfl <;>
      exact pow_ne_one_of_powModAux 927093389 3 _ 32 hfe (by decide)
        (by decide) (by norm_num)

set_option maxRecDepth 40000 in
theorem prime_13090036741 : Nat.Prime 13090036741 := by
  haveI : NeZero (13090036741 : Nat) := ⟨by decide⟩
  have hb : (13090036741 : Nat) - 1 < 2 ^ 36 := by norm_num
  have h1 : (13090036741 : Nat) - 1 =
      2 ^ 2 * (3 * (5 * (11 * (47 * (421987))))) := by norm_num
  apply lucas_primality 13090036741 ((10 : Nat) : ZMod 13090036741)
  · exact pow_eq_one_of_powModAux 13090036741 10 (13090036741 - 1) 36 hb (by decide)
  · intro l hl hld
    have hcases : l = 2 ∨ l = 3 ∨ l = 5 ∨ l = 11 ∨ l = 47 ∨ l = 421987 := by
      rw [h1] at hld
      rcases (Nat.Prime.dvd_mul hl).1 hld with h | h
      · exact Or.inl ((Nat.prime_dvd_prime_iff_eq hl (by norm_num)).1 (hl.dvd_of_dvd_pow h))
      rcases (Nat.Prime.dvd_mul hl).1 h with h | h
      · exact Or.inr (Or.inl ((Nat.prime_dvd_prime_iff_eq hl (by norm_num)).1 h))
      rcases (Nat.Prime.dvd_mul hl).1 h with h | h
      · exact Or.inr (Or.inr (Or.inl ((Nat.prime_dvd_prime_iff_eq hl (by norm_num)).1 h)))
      rcases (Nat.Prime.dvd_mul hl).1 h with h | h
      · exact Or.inr (Or.inr (Or.inr (Or.inl ((Nat.prime_dvd_prime_iff_eq hl (by norm_num)).1 h))))
      rcases (Nat.Prime.dvd_mul hl).1 h with h | h
      · exact Or.inr (Or.inr (Or.inr (Or.inr (Or.inl ((Nat.prime_dvd_prime_iff_eq hl (by norm_num)).1 h)))))
      · exact Or.inr (Or.inr (Or.inr (Or.inr (Or.inr ((Nat.prime_dvd_prime_iff_eq hl (by norm_num)).1 h)))))
    have hfe : ((13090036741 : Nat) - 1) / l < 2 ^ 36 :=
      lt_of_le_of_lt (Nat.div_le_self _ _) hb
    rcases hcases with rfl | rfl | rfl | rfl | rfl | rfl <;>
      exact pow_ne_one_of_powModAux 13090036741 10 _ 36 hfe (by decide)
        (by decide) (by norm_num)

set_option maxRecDepth 40000 in
theorem prime_43670061551 : Nat.Prime 43670061551 := by
  haveI : NeZero (43670061551 : Nat) := ⟨by decide⟩
  have hb : (43670061551 : Nat) - 1 < 2 ^ 38 := by norm_num
  have h1 : (43670061551 : Nat) - 1 =
      2 * (5 ^ 2 * (17 * (51376543))) := by norm_num
  apply lucas_primality 43670061551 ((7 : Nat) : ZMod 43670061551)
  · exact pow_eq_one_of_powModAux 43670061551 7 (43670061551 - 1) 38 hb (by decide)
  · intro l hl hld
    have hcases : l = 2 ∨ l = 5 ∨ l = 17 ∨ l = 51376543 := by
      rw [h1] at hld
      rcases (Nat.Prime.dvd_mul hl).1 hld with h | h
      · exact Or.inl ((Nat.prime_dvd_prime_iff_eq hl (by norm_num)).1 h)
      rcases (Nat.Prime.dvd_mul hl).1 h with h | h
      · exact Or.inr (Or.inl ((Nat.prime_dvd_prime_iff_eq hl (by norm_num)).1 (hl.dvd_of_dvd_pow h)))
      rcases (Nat.Prime.dvd_mul hl).1 h with h | h
      · exact Or.inr (Or.inr (Or.inl ((Nat.prime_dvd_prime_iff_eq hl (by norm_num)).1 h)))
      · exact Or.inr (Or.inr (Or.inr ((Nat.prime_dvd_prime_iff_eq hl (prime_51376543)).1 h)))
    have hfe : ((43670061551 : Nat) - 1) / l < 2 ^ 38 :=
      lt_of_le_of_lt (Nat.div_le_self _ _) hb
    rcases hcases with rfl | rfl | rfl | rfl <;>
      exact pow_ne_one_of_powModAux 43670061551 7 _ 38 hfe (by decide)
        (by decide) (by norm_num)

set_option maxRecDepth 40000 in
theorem prime_9272813673901 : Nat.Prime 9272813673901 := by
  haveI : NeZero (9272813673901 : Nat) := ⟨by decide⟩
  have hb : (9272813673901 : Nat) - 1 < 2 ^ 46 := by norm_num
  have h1 : (9272813673901 : Nat) - 1 =
      2 ^ 2 * (3 * (5 ^ 2 * (7 * (7577 * (582767))))) := by norm_num
  apply lucas_primality 9272813673901 ((2 : Nat) : ZMod 9272813673901)
  · exact pow_eq_one_of_powModAux 9272813673901 2 (9272813673901 - 1) 46 hb (by decide)
  · intro l hl hld
    have hcases : l = 2 ∨ l = 3 ∨ l = 5 ∨ l = 7 ∨ l = 7577 ∨ l = 582767 := by
      rw [h1] at hld
      rcases (Nat.Prime.dvd_mul hl).1 hld with h | h
      · exact Or.inl ((Nat.prime_dvd_prime_iff_eq hl (by norm_num)).1 (hl.dvd_of_dvd_pow h))
      rcases (Nat.Prime.dvd_mul hl).1 h with h | h
      · exact Or.inr (Or.inl ((Nat.prime_dvd_prime_iff_eq hl (by norm_num)).1 h))
      rcases (Nat.Prime.dvd_mul hl).1 h with h | h
      · exact Or.inr (Or.inr (Or.inl ((Nat.prime_dvd_prime_iff_eq hl (by norm_num)).1 (hl.dvd_of_dvd_pow h))))
      rcases (Nat.Prime.dvd_mul hl).1 h with h | h
      · exact Or.inr (Or.inr (Or.inr (Or.inl ((Nat.prime_dvd_prime_iff_eq hl (by norm_num)).1 h))))
      rcases (Nat.Prime.dvd_mul hl).1 h with h | h
      · exact Or.inr (Or.inr (Or.inr (Or.inr (Or.inl ((Nat.prime_dvd_prime_iff_eq hl (by norm_num)).1 h)))))
      · exact Or.inr (Or.inr (Or.inr (Or.inr (Or.inr ((Nat.prime_dvd_prime_iff_eq hl (by norm_num)).1 h)))))
    have hfe : ((9272813673901 : Nat) - 1) / l < 2 ^ 46 :=
      lt_of_le_of_lt (Nat.div_le_self _ _) hb
    rcases hcases with rfl | rfl | rfl | rfl | rfl | rfl <;>
      exact pow_ne_one_of_powModAux 9272813673901 2 _ 46 hfe (by decide)
        (by decide) (by norm_num)

set_option maxRecDepth 40000 in
theorem prime_64881703735777 : Nat.Prime 64881703735777 := by
  haveI : NeZero (64881703735777 : Nat) := ⟨by decide⟩
  have hb : (64881703735777 : Nat) - 1 < 2 ^ 48 := by norm_num
  have h1 : (64881703735777 : Nat) - 1 =
      2 ^ 5 * (3 ^ 7 * (927093389)) := by norm_num
  apply lucas_primality 64881703735777 ((5 : Nat) : ZMod 64881703735777)
  · exact pow_eq_one_of_powModAux 64881703735777 5 (64881703735777 - 1) 48 hb (by decide)
  · intro l hl hld
    have hcases : l = 2 ∨ l = 3 ∨ l = 927093389 := by
      rw [h1] at hld
      rcases (Nat.Prime.dvd_mul hl).1 hld with h | h
      · exact Or.inl ((Nat.prime_dvd_prime_iff_eq hl (by norm_num)).1 (hl.dvd_of_dvd_pow h))
      rcases (Nat.Prime.dvd_mul hl).1 h with h | h
      · exact Or.inr (Or.inl ((Nat.prime_dvd_prime_iff_eq hl (by norm_num)).1 (hl.dvd_of_dvd_pow h)))
      · exact Or.inr (Or.inr ((Nat.prime_dvd_prime_iff_eq hl (prime_927093389)).1 h))
    have hfe : ((64881703735777 : Nat) - 1) / l < 2 ^ 48 :=
      lt_of_le_of_lt (Nat.div_le_self _ _) hb
    rcases hcases with rfl | rfl | rfl <;>
      exact pow_ne_one_of_powModAux 64881703735777 5 _ 48 hfe (by decide)
        (by decide) (by norm_num)

set_option maxRecDepth 40000 in
theorem prime_1928745244171409 : Nat.Prime 1928745244171409 := by
  haveI : NeZero (1928745244171409 : Nat) := ⟨by decide⟩
  have hb : (1928745244171409 : Nat) - 1 < 2 ^ 53 := by norm_num
  have h1 : (1928745244171409 : Nat) - 1 =
      2 ^ 4 * (13 * (9272813673901)) := by norm_num
  apply lucas_primality 1928745244171409 ((3 : Nat) : ZMod 1928745244171409)
  · exact pow_eq_one_of_powModAux 1928745244171409 3 (1928745244171409 - 1) 53 hb (by decide)
  · intro l hl hld
    have hcases : l = 2 ∨ l = 13 ∨ l = 9272813673901 := by
      rw [h1] at hld
      rcases (Nat.Prime.dvd_mul hl).1 hld with h | h
      · exact Or.inl ((Nat.prime_dvd_prime_iff_eq hl (by norm_num)).1 (hl.dvd_of_dvd_pow h))
      rcases (Nat.Prime.dvd_mul hl).1 h with h | h
      · exact Or.inr (Or.inl ((Nat.prime_dvd_prime_iff_eq hl (by norm_num)).1 h))
      · exact Or.inr (Or.inr ((Nat.prime_dvd_prime_iff_eq hl (prime_9272813673901)).1 h))
    have hfe : ((1928745244171409 : Nat) - 1) / l < 2 ^ 53 :=
      lt_of_le_of_lt (Nat.div_le_self _ _) hb
    rcases hcases with rfl | rfl | rfl <;>
      exact pow_ne_one_of_powModAux 1928745244171409 3 _ 53 hfe (by decide)
        (by decide) (by norm_num)

set_option maxRecDepth 40000 in
theorem prime_7259797099061183477 : Nat.Prime 7259797099061183477 := by
  haveI : NeZero (7259797099061183477 : Nat) := ⟨by decide⟩
  have hb : (7259797099061183477 : Nat) - 1 < 2 ^ 65 := by norm_num
  have h1 : (7259797099061183477 : Nat) - 1 =
      2 ^ 2 * (941 * (1928745244171409)) := by norm_num
  apply lucas_primality 7259797099061183477 ((2 : Nat) : ZMod 7259797099061183477)
  · exact pow_eq_one_of_powModAux 7259797099061183477 2 (7259797099061183477 - 1) 65 hb (by decide)
  · intro l hl hld
    have hcases : l = 2 ∨ l = 941 ∨ l = 1928745244171409 := by
      rw [h1] at hld
      rcases (Nat.Prime.dvd_mul hl).1 hld with h | h
      · exact Or.inl ((Nat.prime_dvd_prime_iff_eq hl (by norm_num)).1 (hl.dvd_of_dvd_pow h))
      rcases (Nat.Prime.dvd_mul hl).1 h with h | h
      · exact Or.inr (Or.inl ((Nat.prime_dvd_prime_iff_eq hl (by norm_num)).1 h))
      · exact Or.inr (Or.inr ((Nat.prime_dvd_prime_iff_eq hl (prime_1928745244171409)).1 h))
    have hfe : ((7259797099061183477 : Nat) - 1) / l < 2 ^ 65 :=
      lt_of_le_of_lt (Nat.div_le_self _ _) hb
    rcases hcases with rfl | rfl | rfl <;>
      exact pow_ne_one_of_powModAux 7259797099061183477 2 _ 65 hfe (by decide)
        (by decide) (by norm_num)

set_option maxRecDepth 40000 in
theorem prime_2584487767265781317813 : Nat.Prime 2584487767265781317813 := by
  haveI : NeZero (2584487767265781317813 : Nat) := ⟨by decide⟩
  have hb : (2584487767265781317813 : Nat) - 1 < 2 ^ 74 := by norm_num
  have h1 : (2584487767265781317813 : Nat) - 1 =
      2 ^ 2 * (89 * (7259797099061183477)) := by norm_num
  apply lucas_primality 2584487767265781317813 ((2 : Nat) : ZMod 2584487767265781317813)
  · exact pow_eq_one_of_powModAux 2584487767265781317813 2 (2584487767265781317813 - 1) 74 hb (by decide)
  · intro l hl hld
    have hcases : l = 2 ∨ l = 89 ∨ l = 7259797099061183477 := by
      rw [h1] at hld
      rcases (Nat.Prime.dvd_mul hl).1 hld with h | h
      · exact Or.inl ((Nat.prime_dvd_prime_iff_eq hl (by norm_num)).1 (hl.dvd_of_dvd_pow h))
      rcases (Nat.Prime.dvd_mul hl).1 h with h | h
      · exact Or.inr (Or.inl ((Nat.prime_dvd_prime_iff_eq hl (by norm_num)).1 h))
      · exact Or.inr (Or.inr ((Nat.prime_dvd_prime_iff_eq hl (prime_7259797099061183477)).1 h))
    have hfe : ((2584487767265781317813 : Nat) - 1) / l < 2 ^ 74 :=
      lt_of_le_of_lt (Nat.div_le_self _ _) hb
    rcases hcases with rfl | rfl | rfl <;>
      exact pow_ne_one_of_powModAux 2584487767265781317813 2 _ 74 hfe (by decide)
        (by decide) (by norm_num)

set_option maxRecDepth 40000 in
theorem prime_3819663927398918131021 : Nat.Prime 3819663927398918131021 := by
  haveI : NeZero (3819663927398918131021 : Nat) := ⟨by decide⟩
  have hb : (3819663927398918131021 : Nat) - 1 < 2 ^ 74 := by norm_num
  have h1 : (3819663927398918131021 : Nat) - 1 =
      2 ^ 2 * (3 ^ 2 * (5 * (19 * (113 * (755057 * (13090036741)))))) := by norm_num
  apply lucas_primality 3819663927398918131021 ((6 : Nat) : ZMod 3819663927398918131021)
  · exact pow_eq_one_of_powModAux 3819663927398918131021 6 (3819663927398918131021 - 1) 74 hb (by decide)
  · intro l hl hld
    have hcases : l = 2 ∨ l = 3 ∨ l = 5 ∨ l = 19 ∨ l = 113 ∨ l = 755057 ∨ l = 13090036741 := by
      rw [h1] at hld
      rcases (Nat.Prime.dvd_mul hl).1 hld with h | h
      · exact Or.inl ((Nat.prime_dvd_prime_iff_eq hl (by norm_num)).1 (hl.dvd_of_dvd_pow h))
      rcases (Nat.Prime.dvd_mul hl).1 h with h | h
      · exact Or.inr (Or.inl ((Nat.prime_dvd_prime_iff_eq hl (by norm_num)).1 (hl.dvd_of_dvd_pow h)))
      rcases (Nat.Prime.dvd_mul hl).1 h with h | h
      · exact Or.inr (Or.inr (Or.inl ((Nat.prime_dvd_prime_iff_eq hl (by norm_num)).1 h)))
      rcases (Nat.Prime.dvd_mul hl).1 h with h | h
      · exact Or.inr (Or.inr (Or.inr (Or.inl ((Nat.prime_dvd_prime_iff_eq hl (by norm_num)).1 h))))
      rcases (Nat.Prime.dvd_mul hl).1 h with h | h
      · exact Or.inr (Or.inr (Or.inr (Or.inr (Or.inl ((Nat.prime_dvd_prime_iff_eq hl (by norm_num)).1 h)))))
      rcases (Nat.Prime.dvd_mul hl).1 h with h | h
      · exact Or.inr (Or.inr (Or.inr (Or.inr (Or.inr (Or.inl ((Nat.prime_dvd_prime_iff_eq hl (by norm_num)).1 h))))))
      · exact Or.inr (Or.inr (Or.inr (Or.inr (Or.inr (Or.inr ((Nat.prime_dvd_prime_iff_eq hl (prime_13090036741)).1 h))))))
    have hfe : ((3819663927398918131021 : Nat) - 1) / l < 2 ^ 74 :=
      lt_of_le_of_lt (Nat.div_le_self _ _) hb
    rcases hcases with rfl | rfl | rfl | rfl | rfl | rfl | rfl <;>
      exact pow_ne_one_of_powModAux 3819663927398918131021 6 _ 74 hfe (by decide)
        (by decide) (by norm_num)

set_option maxRecDepth 40000 in
theorem prime_92691255082156974996979 : Nat.Prime 92691255082156974996979 := by
  haveI : NeZero (92691255082156974996979 : Nat) := ⟨by decide⟩
  have hb : (92691255082156974996979 : Nat) - 1 < 2 ^ 79 := by norm_num
  have h1 : (92691255082156974996979 : Nat) - 1 =
      2 * (3 * (31 * (467 * (16447 * (64881703735777))))) := by norm_num
  apply lucas_primality 92691255082156974996979 ((3 : Nat) : ZMod 92691255082156974996979)
  · exact pow_eq_one_of_powModAux 92691255082156974996979 3 (92691255082156974996979 - 1) 79 hb (by decide)
  · intro l hl hld
    have hcases : l = 2 ∨ l = 3 ∨ l = 31 ∨ l = 467 ∨ l = 16447 ∨ l = 64881703735777 := by
      rw [h1] at hld
      rcases (Nat.Prime.dvd_mul hl).1 hld with h | h
      · exact Or.inl ((Nat.prime_dvd_prime_iff_eq hl (by norm_num)).1 h)
      rcases (Nat.Prime.dvd_mul hl).1 h with h | h
      · exact Or.inr (Or.inl ((Nat.prime_dvd_prime_iff_eq hl (by norm_num)).1 h))
      rcases (Nat.Prime.dvd_mul hl).1 h with h | h
      · exact Or.inr (Or.inr (Or.inl ((Nat.prime_dvd_prime_iff_eq hl (by norm_num)).1 h)))
      rcases (Nat.Prime.dvd_mul hl).1 h with h | h
      · exact Or.inr (Or.inr (Or.inr (Or.inl ((Nat.prime_dvd_prime_iff_eq hl (by norm_num)).1 h))))
      rcases (Nat.Prime.dvd_mul hl).1 h with h | h
      · exact Or.inr (Or.inr (Or.inr (Or.inr (Or.inl ((Nat.prime_dvd_prime_iff_eq hl (by norm_num)).1 h)))))
      · exact Or.inr (Or.inr (Or.inr (Or.inr (Or.inr ((Nat.prime_dvd_prime_iff_eq hl (prime_64881703735777)).1 h)))))
    have hfe : ((92691255082156974996979 : Nat) - 1) / l < 2 ^ 79 :=
      lt_of_le_of_lt (Nat.div_le_self _ _) hb
    rcases hcases with rfl | rfl | rfl | rfl | rfl | rfl <;>
      exact pow_ne_one_of_powModAux 92691255082156974996979 3 _ 79 hfe (by decide)
        (by decide) (by norm_num)

set_option maxRecDepth 40000 in
theorem prime_1125266252156850182658904441386709967 : Nat.Prime 1125266252156850182658904441386709967 := by
  haveI : NeZero (1125266252156850182658904441386709967 : Nat) := ⟨by decide⟩
  have hb : (1125266252156850182658904441386709967 : Nat) - 1 < 2 ^ 122 := by norm_num
  have h1 : (1125266252156850182658904441386709967 : Nat) - 1 =
      2 * (3373 * (43670061551 * (3819663927398918131021))) := by norm_num
  apply lucas_primality 1125266252156850182658904441386709967 ((5 : Nat) : ZMod 1125266252156850182658904441386709967)
  · exact pow_eq_one_of_powModAux 1125266252156850182658904441386709967 5 (1125266252156850182658904441386709967 - 1) 122 hb (by decide)
  · intro l hl hld
    have hcases : l = 2 ∨ l = 3373 ∨ l = 43670061551 ∨ l = 3819663927398918131021 := by
      rw [h1] at hld
      rcases (Nat.Prime.dvd_mul hl).1 hld with h | h
      · exact Or.inl ((Nat.prime_dvd_prime_iff_eq hl (by norm_num)).1 h)
      rcases (Nat.Prime.dvd_mul hl).1 h with h | h
      · exact Or.inr (Or.inl ((Nat.prime_dvd_prime_iff_eq hl (by norm_num)).1 h))
      rcases (Nat.Prime.dvd_mul hl).1 h with h | h
      · exact Or.inr (Or.inr (Or.inl ((Nat.prime_dvd_prime_iff_eq hl (prime_43670061551)).1 h)))
      · exact Or.inr (Or.inr (Or.inr ((Nat.prime_dvd_prime_iff_eq hl (prime_3819663927398918131021)).1 h)))
    have hfe : ((1125266252156850182658904441386709967 : Nat) - 1) / l < 2 ^ 122 :=
      lt_of_le_of_lt (Nat.div_le_self _ _) hb
    rcases hcases with rfl | rfl | rfl | rfl <;>
      exact pow_ne_one_of_powModAux 1125266252156850182658904441386709967 5 _ 122 hfe (by decide)
        (by decide) (by norm_num)

set_option maxRecDepth 40000 in
theorem prime_15778400344354997994418419698270088123916926905054652752758194827714659 : Nat.Prime 15778400344354997994418419698270088123916926905054652752758194827714659 := by
  haveI : NeZero (15778400344354997994418419698270088123916926905054652752758194827714659 : Nat) := ⟨by decide⟩
  have hb : (15778400344354997994418419698270088123916926905054652752758194827714659 : Nat) - 1 < 2 ^ 236 := by norm_num
  have h1 : (15778400344354997994418419698270088123916926905054652752758194827714659 : Nat) - 1 =
      2 * (3 * (53 * (475709467 * (92691255082156974996979 * (1125266252156850182658904441386709967))))) := by norm_num
  apply lucas_primality 15778400344354997994418419698270088123916926905054652752758194827714659 ((2 : Nat) : ZMod 15778400344354997994418419698270088123916926905054652752758194827714659)
  · exact pow_eq_one_of_powModAux 15778400344354997994418419698270088123916926905054652752758194827714659 2 (15778400344354997994418419698270088123916926905054652752758194827714659 - 1) 236 hb (by decide)
  · intro l hl hld
    have hcases : l = 2 ∨ l = 3 ∨ l = 53 ∨ l = 475709467 ∨ l = 92691255082156974996979 ∨ l = 1125266252156850182658904441386709967 := by
      rw [h1] at hld
      rcases (Nat.Prime.dvd_mul hl).1 hld with h | h
      · exact Or.inl ((Nat.prime_dvd_prime_iff_eq hl (by norm_num)).1 h)
      rcases (Nat.Prime.dvd_mul hl).1 h with h | h
      · exact Or.inr (Or.inl ((Nat.prime_dvd_prime_iff_eq hl (by norm_num)).1 h))
      rcases (Nat.Prime.dvd_mul hl).1 h with h | h
      · exact Or.inr (Or.inr (Or.inl ((Nat.prime_dvd_prime_iff_eq hl (by norm_num)).1 h)))
      rcases (Nat.Prime.dvd_mul hl).1 h with h | h
      · exact Or.inr (Or.inr (Or.inr (Or.inl ((Nat.prime_dvd_prime_iff_eq hl (prime_475709467)).1 h))))
      rcases (Nat.Prime.dvd_mul hl).1 h with h | h
      · exact Or.inr (Or.inr (Or.inr (Or.inr (Or.inl ((Nat.prime_dvd_prime_iff_eq hl (prime_92691255082156974996979)).1 h)))))
      · exact Or.inr (Or.inr (Or.inr (Or.inr (Or.inr ((Nat.prime_dvd_prime_iff_eq hl (prime_1125266252156850182658904441386709967)).1 h)))))
    have hfe : ((15778400344354997994418419698270088123916926905054652752758194827714659 : Nat) - 1) / l < 2 ^ 236 :=
      lt_of_le_of_lt (Nat.div_le_self _ _) hb
    rcases hcases with rfl | rfl | rfl | rfl | rfl | rfl <;>
      exact pow_ne_one_of_powModAux 15778400344354997994418419698270088123916926905054652752758194827714659 2 _ 236 hfe (by decide)
        (by decide) (by norm_num)

set_option maxRecDepth 40000 in
theorem qBLS_prime : Nat.Prime qBLS := by
  have hb : (qBLS : Nat) - 1 < 2 ^ 383 := by norm_num [qBLS]
  have h1 : (qBLS : Nat) - 1 =
      2 * (3 ^ 2 * (11 * (23 * (47 * (10177 * (859267 * (52437899 * (2584487767265781317813 * (15778400344354997994418419698270088123916926905054652752758194827714659))))))))) := by norm_num [qBLS]
  apply lucas_primality qBLS ((2 : Nat) : ZMod qBLS)
  · exact pow_eq_one_of_powModAux qBLS 2 (qBLS - 1) 383 hb (by decide)
  · intro l hl hld
    have hcases : l = 2 ∨ l = 3 ∨ l = 11 ∨ l = 23 ∨ l = 47 ∨ l = 10177 ∨ l = 859267 ∨ l = 52437899 ∨ l = 2584487767265781317813 ∨ l = 15778400344354997994418419698270088123916926905054652752758194827714659 := by
      rw [h1] at hld
      rcases (Nat.Prime.dvd_mul hl).1 hld with h | h
      · exact Or.inl ((Nat.prime_dvd_prime_iff_eq hl (by norm_num)).1 h)
      rcases (Nat.Prime.dvd_mul hl).1 h with h | h
      · exact Or.inr (Or.inl ((Nat.prime_dvd_prime_iff_eq hl (by norm_num)).1 (hl.dvd_of_dvd_pow h)))
      rcases (Nat.Prime.dvd_mul hl).1 h with h | h
      · exact Or.inr (Or.inr (Or.inl ((Nat.prime_dvd_prime_iff_eq hl (by norm_num)).1 h)))
      rcases (Nat.Prime.dvd_mul hl).1 h with h | h
      · exact Or.inr (Or.inr (Or.inr (Or.inl ((Nat.prime_dvd_prime_iff_eq hl (by norm_num)).1 h))))
      rcases (Nat.Prime.dvd_mul hl).1 h with h | h
      · exact Or.inr (Or.inr (Or.inr (Or.inr (Or.inl ((Nat.prime_dvd_prime_iff_eq hl (by norm_num)).1 h)))))
      rcases (Nat.Prime.dvd_mul hl).1 h with h | h
      · exact Or.inr (Or.inr (Or.inr (Or.inr (Or.inr (Or.inl ((Nat.prime_dvd_prime_iff_eq hl (by norm_num)).1 h))))))
      rcases (Nat.Prime.dvd_mul hl).1 h with h | h
      · exact Or.inr (Or.inr (Or.inr (Or.inr (Or.inr (Or.inr (Or.inl ((Nat.prime_dvd_prime_iff_eq hl (by norm_num)).1 h)))))))
      rcases (Nat.Prime.dvd_mul hl).1 h with h | h
      · exact Or.inr (Or.inr (Or.inr (Or.inr (Or.inr (Or.inr (Or.inr (Or.inl ((Nat.prime_dvd_prime_iff_eq hl (prime_52437899)).1 h))))))))
      rcases (Nat.Prime.dvd_mul hl).1 h with h | h
      · exact Or.inr (Or.inr (Or.inr (Or.inr (Or.inr (Or.inr (Or.inr (Or.inr (Or.inl ((Nat.prime_dvd_prime_iff_eq hl (prime_2584487767265781317813)).1 h)))))))))
      · exact Or.inr (Or.inr (Or.inr (Or.inr (Or.inr (Or.inr (Or.inr (Or.inr (Or.inr ((Nat.prime_dvd_prime_iff_eq hl (prime_15778400344354997994418419698270088123916926905054652752758194827714659)).1 h)))))))))
    have hfe : ((qBLS : Nat) - 1) / l < 2 ^ 383 :=
      lt_of_le_of_lt (Nat.div_le_self _ _) hb
    rcases hcases with rfl | rfl | rfl | rfl | rfl | rfl | rfl | rfl | rfl | rfl <;>
      exact pow_ne_one_of_powModAux qBLS 2 _ 383 hfe (by decide)
        (by decide) (by norm_num [qBLS])

/-- C1. For every valid G1 affine point (including the identity),
decoding its Zcash encoding returns exactly the point, and likewise for
every valid G2 affine point. -/
theorem claim_C1_zcash_roundtrip :
    (∀ p : G1, G1.valid p →
      bls_g1_affine_from_zcash_bytes (bls_g1_affine_to_zcash_bytes p) =
        some p) ∧
    (∀ p : G2, G2.valid p →
      bls_g2_affine_from_zcash_bytes (bls_g2_affine_to_zcash_bytes p) =
        some p) :=
  ⟨fun p hv => g1_roundtrip_valid qBLS_prime p hv,
   fun p hv => g2_roundtrip_valid qBLS_prime p hv⟩

/-- Witness for C1 at the identity points of G1 and G2. -/
theorem claim_C1_zcash_roundtrip_witness :
    (G1.valid G1.zero ∧
      bls_g1_affine_from_zcash_bytes (bls_g1_affine_to_zcash_bytes G1.zero) =
        some G1.zero) ∧
    (G2.valid G2.zero ∧
      bls_g2_affine_from_zcash_bytes (bls_g2_affine_to_zcash_bytes G2.zero) =
        some G2.zero) :=
  ⟨⟨by decide, claim_C1_zcash_roundtrip.1 G1.zero (by decide)⟩,
   ⟨by decide, claim_C1_zcash_roundtrip.2 G2.zero (by decide)⟩⟩
